import Mathlib

/-!
Verification development for the `song_automations` repository.

This file gives a shallow embedding, in Lean 4, of the matching-and-reconciliation
core of the repository (`src/song_automations/state/tracker.py`,
`src/song_automations/sync/engine.py`, `src/song_automations/matching/fuzzy.py`)
and proves or refutes the specification claims about it.

Modelling conventions:
* Python floats are modelled as rationals (`Rat`); the claims under study are
  order/arithmetic structural properties that do not depend on IEEE rounding.
* SQLite tables are modelled as Lean lists of rows; `INSERT OR REPLACE` on a
  UNIQUE key is modelled as "remove every row with that key, then add the fresh
  row", with omitted columns receiving their schema defaults
  (`searched_at = CURRENT_TIMESTAMP`, `review_status = 'pending'`).
* Timestamps are integers (seconds); `searched_at > datetime('now', '-N days')`
  becomes `now - N * 86400 < searched_at`.
* Effectful code (network clients, state writes) is modelled by explicit
  scripts returning `Except String _` values plus an explicit effect trace;
  Python's unhandled-exception propagation is the `Except` error short-circuit.
-/

/-! ## State tracker model (`state/tracker.py`) -/

/-- A row of the `matched_tracks` table (dataclass `MatchedTrack`,
`tracker.py` lines 52-79; schema lines 219-231, UNIQUE on
(discogs_release_id, discogs_track_position, destination),
`review_status TEXT DEFAULT 'pending'`). -/
structure CachedMatchRow where
  releaseId : Int
  pos : String
  artist : String
  trackName : String
  dest : String
  destTrackId : Option String
  matchConfidence : Rat
  searchedAt : Int
  reviewStatus : Option String
deriving DecidableEq, Repr

/-- The WHERE clause of `StateTracker.get_cached_match` (tracker.py lines
470-481): key equality, `searched_at > datetime('now', '-max_age_days days')`,
and `(review_status IS NULL OR review_status != 'rejected')`. -/
def cacheRowVisible (releaseId : Int) (pos dest : String) (now maxAgeDays : Int)
    (r : CachedMatchRow) : Bool :=
  r.releaseId = releaseId && r.pos = pos && r.dest = dest &&
    (now - maxAgeDays * 86400 < r.searchedAt) &&
    (r.reviewStatus = none || r.reviewStatus ≠ some "rejected")

/-- `StateTracker.get_cached_match` (tracker.py lines 452-497): the first row of
`matched_tracks` satisfying the WHERE clause, if any.  The Python default for
`max_age_days` is 30. -/
def get_cached_match (db : List CachedMatchRow) (releaseId : Int) (pos dest : String)
    (now : Int) (maxAgeDays : Int) : Option CachedMatchRow :=
  db.find? (cacheRowVisible releaseId pos dest now maxAgeDays)

/-- `StateTracker.save_matched_track` (tracker.py lines 499-537):
`INSERT OR REPLACE INTO matched_tracks` listing every column except `id`,
`searched_at` and `review_status`; the replaced row therefore gets the schema
defaults `searched_at = CURRENT_TIMESTAMP` (here `now`) and
`review_status = 'pending'`. -/
def save_matched_track (db : List CachedMatchRow) (releaseId : Int)
    (pos artist trackName dest : String) (destTrackId : Option String)
    (matchConfidence : Rat) (now : Int) : List CachedMatchRow :=
  { releaseId := releaseId, pos := pos, artist := artist, trackName := trackName,
    dest := dest, destTrackId := destTrackId, matchConfidence := matchConfidence,
    searchedAt := now, reviewStatus := some "pending" } ::
    db.filter (fun r => !(r.releaseId = releaseId && r.pos = pos && r.dest = dest))

/-- C4: Rejected-row suppression: if every `matched_tracks` row stored under a
(release id, track position, destination) key has `review_status = 'rejected'`,
then `get_cached_match` returns `None` for that key at every current time and
every max-age, so the resolver never treats a rejected row as a valid match
(the rows are filtered out, not deleted). -/
theorem rejected_rows_never_returned (db : List CachedMatchRow) (releaseId : Int)
    (pos dest : String) (now maxAgeDays : Int)
    (hrej : ∀ r ∈ db, r.releaseId = releaseId → r.pos = pos → r.dest = dest →
      r.reviewStatus = some "rejected") :
    get_cached_match db releaseId pos dest now maxAgeDays = none := by
  rw [get_cached_match, List.find?_eq_none]
  intro r hr
  by_cases hk : r.releaseId = releaseId ∧ r.pos = pos ∧ r.dest = dest
  · have := hrej r hr hk.1 hk.2.1 hk.2.2
    simp [cacheRowVisible, this, hk.1, hk.2.1, hk.2.2]
  · simp only [cacheRowVisible, Bool.and_eq_true, decide_eq_true_eq, not_and] at hk ⊢
    tauto

/-- Witness for C4's theorem at a concrete store. -/
theorem rejected_rows_never_returned_witness :
    get_cached_match
      [{ releaseId := 10, pos := "A1", artist := "a", trackName := "t",
         dest := "spotify", destTrackId := some "trk", matchConfidence := 1,
         searchedAt := 0, reviewStatus := some "rejected" }] 10 "A1" "spotify" 0 30
      = none :=
  rejected_rows_never_returned _ 10 "A1" "spotify" 0 30 (by decide)

/-- A concrete approved cache row searched at time 0. -/
def approvedRow : CachedMatchRow :=
  { releaseId := 5, pos := "B2", artist := "a", trackName := "t",
    dest := "spotify", destTrackId := some "trk", matchConfidence := 1,
    searchedAt := 0, reviewStatus := some "approved" }

/-- C3 counterexample: the claim "rows with review_status 'approved' or 'rejected' are treated as
not expired regardless of age" is false: the very same approved row that
`get_cached_match` returns at 10 days of age is no longer returned at 40 days
of age with the default `max_age_days = 30`; the age filter applies to approved
rows exactly as to pending ones. -/
theorem approved_row_expires :
    get_cached_match [approvedRow] 5 "B2" "spotify" (10 * 86400) 30 = some approvedRow ∧
    get_cached_match [approvedRow] 5 "B2" "spotify" (40 * 86400) 30 = none := by
  constructor <;> decide

/-- C3 amended: review decisions do not extend cache lifetime.  Every row
older than `max_age_days` is invisible to `get_cached_match` regardless of its
`review_status` (approved rows expire exactly like pending ones and are
re-resolved on next access); rejected rows are additionally never returned even
when fresh.  Only `clear_matched_tracks` with `preserve_reviewed=True` treats
reviewed rows specially. -/
theorem cache_expiry_ignores_review_status (db : List CachedMatchRow)
    (releaseId : Int) (pos dest : String) (now maxAgeDays : Int)
    (hold : ∀ r ∈ db, r.searchedAt ≤ now - maxAgeDays * 86400) :
    get_cached_match db releaseId pos dest now maxAgeDays = none := by
  rw [get_cached_match, List.find?_eq_none]
  intro r hr
  have h := hold r hr
  simp only [cacheRowVisible, Bool.and_eq_true, decide_eq_true_eq]
  rintro ⟨⟨⟨⟨-, -⟩, -⟩, hlt⟩, -⟩
  omega

/-- Witness for C3's amended theorem at a concrete store. -/
theorem cache_expiry_ignores_review_status_witness :
    get_cached_match [approvedRow] 5 "B2" "spotify" (40 * 86400) 30 = none :=
  cache_expiry_ignores_review_status [approvedRow] 5 "B2" "spotify" (40 * 86400) 30
    (by decide)

/-- C10: `save_matched_track` omits the `review_status` column from its
INSERT OR REPLACE, so after saving under a key, every `matched_tracks` row for
that key carries the schema default `review_status = 'pending'`: a save over a
key whose old row was 'approved' or 'rejected' erases the human review
decision. -/
theorem save_resets_review_status (db : List CachedMatchRow) (releaseId : Int)
    (pos artist trackName dest : String) (destTrackId : Option String)
    (matchConfidence : Rat) (now : Int) (r : CachedMatchRow)
    (hr : r ∈ save_matched_track db releaseId pos artist trackName dest destTrackId
      matchConfidence now)
    (hkey : r.releaseId = releaseId ∧ r.pos = pos ∧ r.dest = dest) :
    r.reviewStatus = some "pending" := by
  rw [save_matched_track, List.mem_cons] at hr
  rcases hr with hr | hr
  · rw [hr]
  · rw [List.mem_filter] at hr
    exfalso
    have := hr.2
    simp only [Bool.not_eq_true', Bool.and_eq_false_iff, decide_eq_false_iff_not] at this
    tauto

/-- Witness for C10's theorem: saving over the concrete approved row yields the
fresh row with pending status. -/
theorem save_resets_review_status_witness :
    (⟨5, "B2", "a2", "t2", "spotify", none, 0, 7, some "pending"⟩ :
      CachedMatchRow).reviewStatus = some "pending" :=
  save_resets_review_status [approvedRow] 5 "B2" "a2" "t2" "spotify" none 0 7 _
    (by decide) (by decide)

/-! ## Candidate scorer model (`matching/fuzzy.py`) -/

/-- `normalize_popularity` (fuzzy.py lines 286-298): clamp `value / max_value`
into [0,1]; 0 when `max_value <= 0`. -/
def normalize_popularity (value : Int) (maxValue : Int) : Rat :=
  if maxValue ≤ 0 then 0 else min 1 (max 0 ((value : Rat) / (maxValue : Rat)))

/-- The weighted linear combination computed by `score_candidate`
(fuzzy.py lines 369-375). -/
def score_total (artistScore titleScore verifiedBonus popularityScore versionBonus
    artistWeight titleWeight verifiedWeight popularityWeight versionBonusWeight :
    Rat) : Rat :=
  artistScore * artistWeight + titleScore * titleWeight +
    verifiedBonus * verifiedWeight + popularityScore * popularityWeight +
    versionBonus * versionBonusWeight

/-- `score_candidate` (fuzzy.py lines 328-377), with the two rapidfuzz-derived
similarity components (`calculate_artist_score`, `calculate_title_score`) and
the version bonus supplied as inputs: rapidfuzz is an external library, and the
claims about `score_candidate` concern how the components are combined.
Returns (total, artist_score, title_score, verified_bonus, popularity_score)
as the source does. -/
def score_candidate (artistScore titleScore : Rat) (isVerified : Bool)
    (popularity maxPopularity : Int) (versionBonus : Rat)
    (artistWeight titleWeight verifiedWeight popularityWeight versionBonusWeight :
    Rat) : Rat × Rat × Rat × Rat × Rat :=
  let verifiedBonus : Rat := if isVerified then 1 else 0
  let popularityScore := normalize_popularity popularity maxPopularity
  let total := score_total artistScore titleScore verifiedBonus popularityScore
    versionBonus artistWeight titleWeight verifiedWeight popularityWeight
    versionBonusWeight
  (total, artistScore, titleScore, verifiedBonus, popularityScore)

/-- C8: `score_candidate`'s total is monotonically non-decreasing in each
component score (artist similarity, title similarity, verified bonus,
popularity score, version bonus) when the other components and all weights are
held fixed and the weights are non-negative; and raising the popularity input
from 10 to 90 (max 100) strictly increases the total whenever the popularity
weight is strictly positive. -/
theorem score_candidate_monotone
    (aw tw vw pw vbw a a' t t' v v' p p' vb vb' : ℚ)
    (haw : 0 ≤ aw) (htw : 0 ≤ tw) (hvw : 0 ≤ vw) (hpw : 0 ≤ pw) (hvbw : 0 ≤ vbw)
    (ha : a ≤ a') (ht : t ≤ t') (hv : v ≤ v') (hp : p ≤ p') (hvb : vb ≤ vb') :
    score_total a t v p vb aw tw vw pw vbw ≤
      score_total a' t' v' p' vb' aw tw vw pw vbw ∧
    (0 < pw → ∀ (a0 t0 vb0 : ℚ) (ver : Bool),
      (score_candidate a0 t0 ver 10 100 vb0 aw tw vw pw vbw).1 <
      (score_candidate a0 t0 ver 90 100 vb0 aw tw vw pw vbw).1) := by
  constructor
  · unfold score_total
    gcongr
  · intro hpos a0 t0 vb0 ver
    have h10 : normalize_popularity 10 100 = 1 / 10 := by
      norm_num [normalize_popularity]
    have h90 : normalize_popularity 90 100 = 9 / 10 := by
      norm_num [normalize_popularity]
    simp only [score_candidate, score_total, h10, h90]
    have : (1 : ℚ) / 10 * pw < 9 / 10 * pw :=
      mul_lt_mul_of_pos_right (by norm_num) hpos
    linarith

/-- Witness for C8's theorem at concrete components and weights. -/
theorem score_candidate_monotone_witness :
    score_total 0 0 0 0 0 1 1 1 1 1 ≤ score_total 1 1 1 1 1 1 1 1 1 1 ∧
    (score_candidate 1 1 false 10 100 0 1 1 1 1 1).1 <
      (score_candidate 1 1 false 90 100 0 1 1 1 1 1).1 :=
  have h := score_candidate_monotone 1 1 1 1 1 0 1 0 1 0 1 0 1 0 1
    (by norm_num) (by norm_num) (by norm_num) (by norm_num) (by norm_num)
    (by norm_num) (by norm_num) (by norm_num) (by norm_num) (by norm_num)
  ⟨h.1, h.2 (by norm_num) 1 1 0 false⟩

/-! ## Reconciliation diff (`sync/engine.py` lines 374-406, spotify branch) -/

/-- `ids_to_add` (engine.py lines 379-381): the accepted `(id, confidence,
flagged)` tuples whose track id is not already in the playlist's current id
set, in list order. -/
def compute_ids_to_add (tracksToAdd : List (String × Rat × Bool))
    (currentIds : Finset String) : List String :=
  (tracksToAdd.filter fun tup => decide (tup.1 ∉ currentIds)).map Prod.fst

/-- `ids_to_remove` (engine.py line 382): current playlist ids not in the
desired id set. -/
def compute_ids_to_remove (currentIds desiredIds : Finset String) :
    Finset String :=
  currentIds.filter fun tid => tid ∉ desiredIds

/-- The playlist's track-id set after `add_tracks_to_playlist` with
`ids_to_add` followed by `remove_tracks_from_playlist` with `ids_to_remove`
(engine.py lines 384-392). -/
def apply_playlist_diff (currentIds : Finset String) (idsToAdd : List String)
    (idsToRemove : Finset String) : Finset String :=
  (currentIds ∪ idsToAdd.toFinset) \ idsToRemove

/-- C1: reconciliation convergence.  If the desired id set is exactly the set
of track ids accumulated in `tracks_to_add` (as `_sync_folder` guarantees:
`desired_track_ids` and `tracks_to_add` are updated in lockstep), then applying
the computed additions and removals to an arbitrary current playlist id set
yields exactly the desired set; and when the current set already equals the
desired set, both the computed addition list and the computed removal set are
empty, so a second run with unchanged inputs performs zero add/remove calls. -/
theorem sync_folder_reconciliation_converges
    (tracksToAdd : List (String × ℚ × Bool)) (currentIds desiredIds : Finset String)
    (hD : (tracksToAdd.map Prod.fst).toFinset = desiredIds) :
    apply_playlist_diff currentIds (compute_ids_to_add tracksToAdd currentIds)
      (compute_ids_to_remove currentIds desiredIds) = desiredIds ∧
    (currentIds = desiredIds →
      compute_ids_to_add tracksToAdd currentIds = [] ∧
      compute_ids_to_remove currentIds desiredIds = ∅) := by
  subst hD
  constructor
  · ext x
    simp only [apply_playlist_diff, compute_ids_to_add, compute_ids_to_remove,
      Finset.mem_sdiff, Finset.mem_union, Finset.mem_filter, List.mem_toFinset,
      List.mem_map, List.mem_filter, decide_eq_true_eq, not_and, not_not]
    constructor
    · rintro ⟨h1 | ⟨tup, ⟨htup, -⟩, hx⟩, h2⟩
      · by_cases hx : ∃ tup, tup ∈ tracksToAdd.map Prod.fst ∧ tup = x
        · rcases hx with ⟨y, hy, rfl⟩
          rcases List.mem_map.mp hy with ⟨tup, htup, hfst⟩
          exact ⟨tup, htup, hfst⟩
        · exact absurd (h2 h1) (by simpa using hx)
      · exact ⟨tup, htup, hx⟩
    · rintro ⟨tup, htup, rfl⟩
      by_cases hc : tup.1 ∈ currentIds
      · exact ⟨Or.inl hc, fun _ => ⟨tup, htup, rfl⟩⟩
      · exact ⟨Or.inr ⟨tup, ⟨htup, hc⟩, rfl⟩, fun _ => ⟨tup, htup, rfl⟩⟩
  · intro hCD
    constructor
    · rw [compute_ids_to_add, List.map_eq_nil_iff, List.filter_eq_nil_iff]
      intro tup htup
      have : tup.1 ∈ currentIds := by
        rw [hCD, List.mem_toFinset]
        exact List.mem_map.mpr ⟨tup, htup, rfl⟩
      simp [this]
    · rw [compute_ids_to_remove, Finset.filter_eq_empty_iff]
      intro x hx
      rw [hCD] at hx
      simp [hx]

/-- Witness for C1's theorem at a concrete drifted playlist. -/
theorem sync_folder_reconciliation_converges_witness :
    apply_playlist_diff {"x", "z"}
      (compute_ids_to_add [("x", 1, false), ("y", 1, true)] {"x", "z"})
      (compute_ids_to_remove {"x", "z"} {"x", "y"}) = {"x", "y"} ∧
    (({"x", "z"} : Finset String) = {"x", "y"} →
      compute_ids_to_add [("x", 1, false), ("y", 1, true)] {"x", "z"} = [] ∧
      compute_ids_to_remove {"x", "z"} {"x", "y"} = ∅) :=
  sync_folder_reconciliation_converges [("x", 1, false), ("y", 1, true)]
    {"x", "z"} {"x", "y"} (by decide)

/-! ## Text normalizer model (`matching/fuzzy.py` lines 143-163)

`normalize_text` lowercases and strips the string, maps curly quote glyphs to
ASCII quotes, collapses whitespace runs to single spaces, strips one leading
"the " and replaces each `\s*-\s*` occurrence by a single space.  The model
works on `List Char`; `lowerChar` covers the ASCII range of `str.lower` and
the whitespace class covers the ASCII range of `\s`/`str.strip` (the claims at
issue do not involve non-ASCII case folding). -/

/-- ASCII lowercasing, the fragment of Python `str.lower` relevant here. -/
def lowerChar (c : Char) : Char :=
  match c with
  | 'A' => 'a' | 'B' => 'b' | 'C' => 'c' | 'D' => 'd' | 'E' => 'e' | 'F' => 'f'
  | 'G' => 'g' | 'H' => 'h' | 'I' => 'i' | 'J' => 'j' | 'K' => 'k' | 'L' => 'l'
  | 'M' => 'm' | 'N' => 'n' | 'O' => 'o' | 'P' => 'p' | 'Q' => 'q' | 'R' => 'r'
  | 'S' => 's' | 'T' => 't' | 'U' => 'u' | 'V' => 'v' | 'W' => 'w' | 'X' => 'x'
  | 'Y' => 'y' | 'Z' => 'z'
  | other => other

/-- `re.sub(r"[  `]", "'", ...)` and `re.sub(r"[  „]", '"', ...)`
(fuzzy.py lines 154-155): map left/right single quotes and backquote to an
ASCII apostrophe, and left/right/low double quotes to an ASCII double quote. -/
def quoteChar (c : Char) : Char :=
  if c = '\u2018' ∨ c = '\u2019' ∨ c = '\u0060' then Char.ofNat 39
  else if c = '\u201C' ∨ c = '\u201D' ∨ c = '\u201E' then '"'
  else c

/-- The ASCII whitespace class of `\s` / `str.strip`. -/
def isWs (c : Char) : Bool :=
  c = ' ' || c = '\t' || c = '\n' || c = '\r' || c = '\u000B' || c = '\u000C'

/-- Python `str.strip`: drop leading and trailing whitespace. -/
def stripWs (l : List Char) : List Char :=
  ((l.dropWhile isWs).reverse.dropWhile isWs).reverse

/-- `re.sub(r"\s+", " ", ...)` (fuzzy.py line 157) as a left-to-right scan:
the boolean records whether the previous character was whitespace (in which
case further whitespace is dropped rather than emitted). -/
def collapseAux : Bool → List Char → List Char
  | _, [] => []
  | prevWs, c :: rest =>
    if isWs c then
      if prevWs then collapseAux true rest else ' ' :: collapseAux true rest
    else c :: collapseAux false rest

/-- Collapse every whitespace run to a single space. -/
def collapseWs (l : List Char) : List Char := collapseAux false l

/-- `re.sub(r"^the\s+", "", ...)` (fuzzy.py line 159): remove a leading "the"
followed by at least one whitespace character (greedily, all of them). -/
def stripThe (l : List Char) : List Char :=
  match l with
  | 't' :: 'h' :: 'e' :: c :: rest =>
    if isWs c then (c :: rest).dropWhile isWs else l
  | _ => l

/-- `re.sub(r"\s*-\s*", " ", ...)` (fuzzy.py line 161) as a left-to-right
scan.  `pend` buffers a whitespace run not yet known to precede a hyphen;
`after` means the scan sits just after a replaced hyphen, where trailing
whitespace was already consumed by the match. -/
def hyphenAux : List Char → Bool → List Char → List Char
  | pend, after, [] => if after then [] else pend.reverse
  | pend, after, c :: rest =>
    if isWs c then
      if after then hyphenAux [] true rest
      else hyphenAux (c :: pend) false rest
    else if c = '-' then ' ' :: hyphenAux [] true rest
    else pend.reverse ++ c :: hyphenAux [] false rest

/-- Replace each maximal `\s*-\s*` occurrence by a single space. -/
def hyphenSub (l : List Char) : List Char := hyphenAux [] false l

/-- The pipeline of `normalize_text` (fuzzy.py lines 143-163) on char lists:
lower, strip, quote mapping, whitespace collapsing, leading-article stripping,
hyphen substitution, in source order. -/
def normTextL (l : List Char) : List Char :=
  hyphenSub (stripThe (collapseWs ((stripWs (l.map lowerChar)).map quoteChar)))

/-- `normalize_text` (fuzzy.py lines 143-163). -/
def normalize_text (s : String) : String := ⟨normTextL s.data⟩

/-- C7 counterexample: `normalize_text` is not idempotent.  On `"-"` the
hyphen substitution produces `" "` (the collapse and strip stages ran before
it), and a second application strips that space away: `normalize_text "-"`
is `" "` while `normalize_text (normalize_text "-")` is `""`. -/
theorem normalize_text_not_idempotent :
    normalize_text (normalize_text "-") ≠ normalize_text "-" ∧
    normalize_text "-" = " " ∧ normalize_text " " = "" := by
  refine ⟨?_, ?_, ?_⟩ <;> decide

/-- `lowerChar` maps every character either to itself or to one of the 26
ASCII lowercase letters. -/
theorem lowerChar_cases (c : Char) :
    lowerChar c = c ∨ lowerChar c ∈
      ['a', 'b', 'c', 'd', 'e', 'f', 'g', 'h', 'i', 'j', 'k', 'l', 'm',
       'n', 'o', 'p', 'q', 'r', 's', 't', 'u', 'v', 'w', 'x', 'y', 'z'] := by
  unfold lowerChar
  split <;> simp

/-- Lowercasing is idempotent. -/
theorem lowerChar_idem (c : Char) : lowerChar (lowerChar c) = lowerChar c := by
  have hfix : ∀ x ∈
      ['a', 'b', 'c', 'd', 'e', 'f', 'g', 'h', 'i', 'j', 'k', 'l', 'm',
       'n', 'o', 'p', 'q', 'r', 's', 't', 'u', 'v', 'w', 'x', 'y', 'z'],
      lowerChar x = x := by decide
  rcases lowerChar_cases c with h | h
  · rw [h]
    exact h
  · exact hfix _ h

/-- `quoteChar` maps every character either to itself or to an ASCII quote. -/
theorem quoteChar_cases (c : Char) :
    quoteChar c = Char.ofNat 39 ∨ quoteChar c = '"' ∨ quoteChar c = c := by
  unfold quoteChar
  split
  · exact Or.inl rfl
  · split
    · exact Or.inr (Or.inl rfl)
    · exact Or.inr (Or.inr rfl)

/-- The quote mapping is idempotent. -/
theorem quoteChar_idem (c : Char) : quoteChar (quoteChar c) = quoteChar c := by
  rcases quoteChar_cases c with h | h | h <;> rw [h]
  · decide
  · decide
  · exact h

/-- Characters produced by the lower-then-quote stages are fixed by
`lowerChar`. -/
theorem lowerChar_fix_rep (c : Char) :
    lowerChar (quoteChar (lowerChar c)) = quoteChar (lowerChar c) := by
  rcases quoteChar_cases (lowerChar c) with h | h | h <;> rw [h]
  · decide
  · decide
  · exact lowerChar_idem c

/-- Mapping a function that fixes every element of a list is the identity. -/
theorem map_self_of_fixed {f : Char → Char} : ∀ {l : List Char},
    (∀ x ∈ l, f x = x) → l.map f = l
  | [], _ => rfl
  | c :: rest, h => by
    rw [List.map_cons, h c (List.mem_cons_self _ _),
      map_self_of_fixed fun x hx => h x (List.mem_cons_of_mem c hx)]

/-- Members of `stripWs l` are members of `l`. -/
theorem mem_stripWs {x : Char} {l : List Char} (h : x ∈ stripWs l) : x ∈ l := by
  rw [stripWs, List.mem_reverse] at h
  have h2 : x ∈ (l.dropWhile isWs).reverse :=
    (List.dropWhile_sublist _).mem h
  rw [List.mem_reverse] at h2
  exact (List.dropWhile_sublist _).mem h2

/-- Members of `collapseAux b l` are spaces or members of `l`. -/
theorem mem_collapseAux {x : Char} :
    ∀ {b : Bool} {l : List Char}, x ∈ collapseAux b l → x = ' ' ∨ x ∈ l := by
  intro b l
  induction l generalizing b with
  | nil => simp [collapseAux]
  | cons c rest ih =>
    simp only [collapseAux]
    split
    · split
      · intro h
        rcases ih h with h | h
        · exact Or.inl h
        · exact Or.inr (List.mem_cons_of_mem c h)
      · intro h
        rcases List.mem_cons.mp h with rfl | h
        · exact Or.inl rfl
        · rcases ih h with h | h
          · exact Or.inl h
          · exact Or.inr (List.mem_cons_of_mem c h)
    · intro h
      rcases List.mem_cons.mp h with rfl | h
      · exact Or.inr (List.mem_cons_self _ _)
      · rcases ih h with h | h
        · exact Or.inl h
        · exact Or.inr (List.mem_cons_of_mem c h)

/-- Members of `stripThe l` are members of `l`. -/
theorem mem_stripThe {x : Char} {l : List Char} (h : x ∈ stripThe l) : x ∈ l := by
  unfold stripThe at h
  split at h
  · split at h
    · rename_i c rest _
      have := (List.dropWhile_sublist (p := isWs)).mem h
      simp only [List.mem_cons] at this ⊢
      tauto
    · exact h
  · exact h

/-- Members of `hyphenAux pend after l` are spaces, members of `pend`, or
members of `l`. -/
theorem mem_hyphenAux {x : Char} :
    ∀ {pend : List Char} {after : Bool} {l : List Char},
      x ∈ hyphenAux pend after l → x = ' ' ∨ x ∈ pend ∨ x ∈ l := by
  intro pend after l
  induction l generalizing pend after with
  | nil =>
    simp only [hyphenAux]
    split
    · simp
    · intro h
      exact Or.inr (Or.inl (List.mem_reverse.mp h))
  | cons c rest ih =>
    simp only [hyphenAux]
    split
    · split
      · intro h
        rcases ih h with h | h | h
        · exact Or.inl h
        · simp at h
        · exact Or.inr (Or.inr (List.mem_cons_of_mem c h))
      · intro h
        rcases ih h with h | h | h
        · exact Or.inl h
        · rcases List.mem_cons.mp h with rfl | h
          · exact Or.inr (Or.inr (List.mem_cons_self _ _))
          · exact Or.inr (Or.inl h)
        · exact Or.inr (Or.inr (List.mem_cons_of_mem c h))
    · split
      · intro h
        rcases List.mem_cons.mp h with rfl | h
        · exact Or.inl rfl
        · rcases ih h with h | h | h
          · exact Or.inl h
          · simp at h
          · exact Or.inr (Or.inr (List.mem_cons_of_mem c h))
      · intro h
        rcases List.mem_append.mp h with h | h
        · exact Or.inr (Or.inl (List.mem_reverse.mp h))
        · rcases List.mem_cons.mp h with rfl | h
          · exact Or.inr (Or.inr (List.mem_cons_self _ _))
          · rcases ih h with h | h | h
            · exact Or.inl h
            · simp at h
            · exact Or.inr (Or.inr (List.mem_cons_of_mem c h))

/-- Every character of `normTextL l` is a space or the image of some character
under lower-then-quote (and a space is itself such an image). -/
theorem normTextL_char_rep {x : Char} {l : List Char} (h : x ∈ normTextL l) :
    ∃ c, x = quoteChar (lowerChar c) := by
  rcases mem_hyphenAux h with rfl | h | h
  · exact ⟨' ', by decide⟩
  · simp at h
  · have h2 := mem_stripThe h
    rcases mem_collapseAux h2 with rfl | h3
    · exact ⟨' ', by decide⟩
    · rcases List.mem_map.mp h3 with ⟨y, hy, rfl⟩
      rcases List.mem_map.mp (mem_stripWs hy) with ⟨c, _, rfl⟩
      exact ⟨c, rfl⟩

/-- A hyphen never appears in the output of the hyphen substitution. -/
theorem hyphen_not_mem_hyphenAux :
    ∀ {pend : List Char} {after : Bool} {l : List Char},
      '-' ∉ pend → '-' ∉ hyphenAux pend after l := by
  intro pend after l
  induction l generalizing pend after with
  | nil =>
    intro hp
    simp only [hyphenAux]
    split
    · simp
    · simpa using hp
  | cons c rest ih =>
    intro hp
    simp only [hyphenAux]
    split
    · rename_i hws
      split
      · exact ih (by simp)
      · refine ih ?_
        intro hmem
        rcases List.mem_cons.mp hmem with rfl | hmem
        · simp [isWs] at hws
        · exact hp hmem
    · split
      · rename_i hc
        intro hmem
        rcases List.mem_cons.mp hmem with h | h
        · exact absurd h.symm (by decide)
        · exact ih (by simp) h
      · rename_i hc
        intro hmem
        rcases List.mem_append.mp hmem with h | h
        · exact hp (List.mem_reverse.mp h)
        · rcases List.mem_cons.mp h with h | h
          · exact hc h.symm
          · exact ih (by simp) h

/-- On hyphen-free input the hyphen substitution flushes its buffer and leaves
the input unchanged. -/
theorem hyphenAux_of_no_hyphen :
    ∀ {pend : List Char} {l : List Char},
      '-' ∉ l → hyphenAux pend false l = pend.reverse ++ l := by
  intro pend l
  induction l generalizing pend with
  | nil => intro _; simp [hyphenAux]
  | cons c rest ih =>
    intro h
    have hc : c ≠ '-' := fun hcc => h (hcc ▸ List.mem_cons_self _ _)
    have hrest : '-' ∉ rest := fun hm => h (List.mem_cons_of_mem c hm)
    simp only [hyphenAux]
    by_cases hw : isWs c = true
    · rw [if_pos hw, ih hrest]
      simp
    · rw [if_neg hw, if_neg (by simpa using hc), ih hrest]
      simp

/-- The hyphen substitution is the identity on hyphen-free lists. -/
theorem hyphenSub_of_no_hyphen {l : List Char} (h : '-' ∉ l) :
    hyphenSub l = l := by
  rw [hyphenSub, hyphenAux_of_no_hyphen h, List.reverse_nil, List.nil_append]

/-- C7 amended: `normalize_text` is not idempotent in general (see the `"-"`
counterexample: hyphen substitution runs after whitespace collapsing and
stripping, so it can leave leading/trailing or doubled spaces, and
article-stripping can expose a second leading "the ").  It is idempotent on
every string whose normalized form is already whitespace-normal and carries no
leading "the ": whenever `normalize_text s` is unchanged by whitespace
stripping, whitespace collapsing and leading-article stripping, a second
application of `normalize_text` is the identity on it. -/
theorem normalize_text_idem_of_normal (s : String)
    (hstrip : stripWs (normalize_text s).data = (normalize_text s).data)
    (hcol : collapseWs (normalize_text s).data = (normalize_text s).data)
    (hthe : stripThe (normalize_text s).data = (normalize_text s).data) :
    normalize_text (normalize_text s) = normalize_text s := by
  have hrep : ∀ x ∈ (normalize_text s).data, ∃ c, x = quoteChar (lowerChar c) := by
    intro x hx
    exact normTextL_char_rep hx
  have hlow : (normalize_text s).data.map lowerChar = (normalize_text s).data := by
    refine map_self_of_fixed ?_
    intro x hx
    rcases hrep x hx with ⟨c, rfl⟩
    exact lowerChar_fix_rep c
  have hq : (normalize_text s).data.map quoteChar = (normalize_text s).data := by
    refine map_self_of_fixed ?_
    intro x hx
    rcases hrep x hx with ⟨c, rfl⟩
    exact quoteChar_idem (lowerChar c)
  have hnh : '-' ∉ (normalize_text s).data :=
    hyphen_not_mem_hyphenAux (by simp)
  show (⟨normTextL (normalize_text s).data⟩ : String) = normalize_text s
  rw [normTextL, hlow, hstrip, hq, hcol, hthe, hyphenSub_of_no_hyphen hnh]

/-- Witness for C7's amended theorem: the normalized form of
`"The  Cure - Lovesong"` is whitespace-normal without a leading article, and
renormalizing leaves it unchanged. -/
theorem normalize_text_idem_of_normal_witness :
    normalize_text (normalize_text "The  Cure - Lovesong") =
      normalize_text "The  Cure - Lovesong" :=
  normalize_text_idem_of_normal "The  Cure - Lovesong"
    (by decide) (by decide) (by decide)

/-! ## Sync engine model (`sync/engine.py`)

The engine is modelled against its `"spotify"` branch (the soundcloud branch
is symmetric modulo integer track ids).  External collaborators are scripts:
each client call yields `Except String _`, and `.error` models an uncaught
Python exception propagating out of the call.  Every client call and every
state write is recorded in an explicit effect trace.  The `ThreadPoolExecutor`
fan-out over releases is modelled sequentially in submission order: the claims
under study concern sets, counts and call occurrences, which do not depend on
`as_completed` completion order. -/

/-- `VersionType` (fuzzy.py lines 11-24). -/
inductive VersionType
  | original | remix | edit | dub | extended | radio
  | instrumental | acapella | remaster | live | other
deriving DecidableEq, Repr

/-- `ParsedTrack` (fuzzy.py lines 27-57). -/
structure ParsedTrack where
  base_title : String
  version : String
  version_type : VersionType
  remixer : String
  full_title : String
  artist : String
deriving DecidableEq, Repr

/-- `ParsedTrack.search_query` (fuzzy.py lines 47-52). -/
def ParsedTrack.searchQuery (p : ParsedTrack) : String :=
  if p.version = "" then p.artist ++ " " ++ p.base_title
  else p.artist ++ " " ++ p.base_title ++ " " ++ p.version

/-- `ParsedTrack.fallback_query` (fuzzy.py lines 54-57). -/
def ParsedTrack.fallbackQuery (p : ParsedTrack) : String :=
  p.artist ++ " " ++ p.base_title

/-- `should_use_fallback` (fuzzy.py lines 380-393). -/
def should_use_fallback (p : ParsedTrack) : Bool :=
  !(p.version_type = VersionType.remix || p.version_type = VersionType.dub ||
    p.version_type = VersionType.edit)

/-- `Folder` from the Discogs client. -/
structure Folder where
  id : Int
  name : String
  count : Int
deriving DecidableEq, Repr

/-- `Release` from the Discogs client (fields the engine reads). -/
structure Release where
  id : Int
  title : String
  artist : String
deriving DecidableEq, Repr

/-- `Track` from the Discogs client (fields the engine reads). -/
structure Track where
  position : String
  title : String
  artist : String
deriving DecidableEq, Repr

/-- A spotify search result as the engine reads it (engine.py lines 469-477):
`search_result.track` fields plus `search_result.is_verified`. -/
structure Candidate where
  id : String
  name : String
  artist : String
  popularity : Int
  uri : String
  isVerified : Bool
deriving DecidableEq, Repr

/-- A platform playlist (fields the engine reads). -/
structure Playlist where
  id : String
  name : String
deriving DecidableEq, Repr

/-- The part of `MatchResult` the engine's control flow consumes
(`track_id` and `confidence`). -/
structure MatchRes where
  trackId : String
  confidence : Rat
deriving DecidableEq, Repr

/-- A row of the `folder_mappings` table (tracker.py lines 200-209,
UNIQUE on (discogs_folder_id, destination)). -/
structure FolderMappingRow where
  folderId : Int
  folderName : String
  dest : String
  playlistId : String
  playlistName : String
deriving DecidableEq, Repr

/-- `StateTracker.get_folder_mapping` (tracker.py lines 291-324). -/
def get_folder_mapping (ms : List FolderMappingRow) (folderId : Int)
    (dest : String) : Option FolderMappingRow :=
  ms.find? (fun m => m.folderId = folderId && m.dest = dest)

/-- `StateTracker.save_folder_mapping` (tracker.py lines 358-383):
INSERT OR REPLACE on the (folder id, destination) unique key; the fresh row
gets a new autoincrement primary key, i.e. moves to the end of table order. -/
def save_folder_mapping (ms : List FolderMappingRow) (folderId : Int)
    (folderName dest playlistId playlistName : String) : List FolderMappingRow :=
  ms.filter (fun m => !(m.folderId = folderId && m.dest = dest)) ++
    [⟨folderId, folderName, dest, playlistId, playlistName⟩]

/-- `StateTracker.delete_folder_mapping` (tracker.py lines 385-403). -/
def delete_folder_mapping (ms : List FolderMappingRow) (folderId : Int)
    (dest : String) : List FolderMappingRow :=
  ms.filter (fun m => !(m.folderId = folderId && m.dest = dest))

/-- `StateTracker.get_all_folder_mappings` (tracker.py lines 326-356). -/
def get_all_folder_mappings (ms : List FolderMappingRow) (dest : String) :
    List FolderMappingRow :=
  ms.filter (fun m => m.dest = dest)

/-- Observable effects of a sync run: playlist-client calls and state-store
writes, in program order. -/
inductive Effect
  | searchCall (query : String)
  | findPlaylistCall (name : String)
  | createPlaylistCall (name : String)
  | deletePlaylistCall (playlistId : String)
  | getTracksCall (playlistId : String)
  | addTracksCall (playlistId : String) (uris : List String)
  | removeTracksCall (playlistId : String) (uris : List String)
  | folderMappingWrite (folderId : Int) (playlistId playlistName : String)
  | folderMappingDelete (folderId : Int)
  | folderReleasesWrite (folderId : Int) (releaseIds : List Int)
  | cachedMatchWrite (releaseId : Int) (pos : String) (destTrackId : Option String)
      (confidence : Rat)
  | missingTrackWrite (releaseId folderId : Int) (trackName : String)
deriving DecidableEq, Repr

/-- Scripted `PlaylistClient` (engine.py lines 80-95): each call either
returns a value or raises (`Except.error`). -/
structure PlaylistClientScript where
  searchTracks : String → Except String (List Candidate)
  findPlaylistByName : String → Except String (Option Playlist)
  createPlaylist : String → String → Except String Playlist
  deletePlaylist : String → Except String Unit
  getPlaylistTracks : String → Except String (List String)
  addTracks : String → List String → Except String Unit
  removeTracks : String → List String → Except String Unit

/-- Scripted Discogs client (the four reads the engine performs). -/
structure DiscogsScript where
  getFolders : Except String (List Folder)
  getFolderReleases : Int → Except String (List Release)
  getWantlistReleases : Except String (List Release)
  getReleaseTracks : Int → Except String (List Track)

/-- The two pure helpers the resolver delegates to: `parse_track_title`
(fuzzy.py lines 196-241, regex-driven) and the total score of
`score_candidate` for a candidate (engine.py lines 486-498; its similarity
inputs come from the external rapidfuzz library).  The engine's control flow
is parametric in both. -/
structure MatchContext where
  parse : String → String → ParsedTrack
  scoreOf : ParsedTrack → Candidate → Rat

/-- The engine settings the modelled code paths read. -/
structure EngineSettings where
  playlistPfx : String
  minConfidence : Rat
  highConfidence : Rat

/-- `HIGH_CONFIDENCE_THRESHOLD = 0.95` (engine.py line 22), as the reduced
rational 19/20. -/
def HIGH_CONFIDENCE_THRESHOLD : Rat := ⟨19, 20, by decide, by decide⟩

/-- Sanity: the threshold constant is 95/100. -/
theorem HIGH_CONFIDENCE_THRESHOLD_eq : HIGH_CONFIDENCE_THRESHOLD = 95 / 100 := by
  rw [HIGH_CONFIDENCE_THRESHOLD, Rat.mk'_eq_divInt]
  norm_num [Rat.divInt_eq_div]

/-- `WANTLIST_FOLDER_ID = -1` (discogs.py line 80). -/
def WANTLIST_FOLDER_ID : Int := -1

/-- The synthetic wantlist folder appended by `_sync`
(engine.py lines 205-212). -/
def wantlistFolder : Folder := ⟨WANTLIST_FOLDER_ID, "Wantlist", 0⟩

/-- The cache-hit test of `_find_track_match` (engine.py lines 432-445):
`if cached and cached.destination_track_id:` — a usable hit needs a
non-expired, non-rejected row whose destination id is non-null and non-empty
(Python string truthiness).  Returns the cached id and confidence. -/
def cache_hit (cache : List CachedMatchRow) (releaseId : Int) (pos : String)
    (now : Int) : Option (String × Rat) :=
  match get_cached_match cache releaseId pos "spotify" now 30 with
  | some c =>
    match c.destTrackId with
    | some tid => if tid = "" then none else some (tid, c.matchConfidence)
    | none => none
  | none => none

/-- The search calls of `_find_track_match` (engine.py lines 449-452):
primary query, then — only when it returned zero results and
`should_use_fallback` — the fallback query. -/
def search_phase (C : PlaylistClientScript) (parsed : ParsedTrack) :
    List Effect × Except String (List Candidate) :=
  match C.searchTracks parsed.searchQuery with
  | .error e => ([.searchCall parsed.searchQuery], .error e)
  | .ok res =>
    if res.isEmpty && should_use_fallback parsed then
      match C.searchTracks parsed.fallbackQuery with
      | .error e =>
        ([.searchCall parsed.searchQuery, .searchCall parsed.fallbackQuery], .error e)
      | .ok res2 =>
        ([.searchCall parsed.searchQuery, .searchCall parsed.fallbackQuery], .ok res2)
    else ([.searchCall parsed.searchQuery], .ok res)

/-- The best-candidate loop of `_find_track_match` (engine.py lines 466-524):
track the best strictly-improving total score, stopping early once a score
reaches `HIGH_CONFIDENCE_THRESHOLD`. -/
def score_loop (ctx : MatchContext) (parsed : ParsedTrack) :
    List Candidate → Option MatchRes → Rat → Option MatchRes × Rat
  | [], best, bestScore => (best, bestScore)
  | cand :: rest, best, bestScore =>
    let total := ctx.scoreOf parsed cand
    if bestScore < total then
      if HIGH_CONFIDENCE_THRESHOLD ≤ total then (some ⟨cand.id, total⟩, total)
      else score_loop ctx parsed rest (some ⟨cand.id, total⟩) total
    else score_loop ctx parsed rest best bestScore

/-- `_find_track_match` (engine.py lines 412-547): cache hit, else search
(with optional fallback), else score and decide; every fresh-resolution
outcome saves exactly one cache row (accepted id on accept, NULL id with the
best score on reject, NULL id with 0.0 when the search returned nothing). -/
def find_track_match (C : PlaylistClientScript) (ctx : MatchContext)
    (cfg : EngineSettings) (cache : List CachedMatchRow) (track : Track)
    (release : Release) (now : Int) :
    List Effect × Except String (Option MatchRes × List CachedMatchRow) :=
  match cache_hit cache release.id track.position now with
  | some (tid, conf) => ([], .ok (some ⟨tid, conf⟩, cache))
  | none =>
    match search_phase C (ctx.parse track.title track.artist) with
    | (effs, .error e) => (effs, .error e)
    | (effs, .ok results) =>
      if results.isEmpty then
        (effs ++ [.cachedMatchWrite release.id track.position none 0],
         .ok (none, save_matched_track cache release.id track.position
           track.artist track.title "spotify" none 0 now))
      else
        match score_loop ctx (ctx.parse track.title track.artist) results none 0 with
        | (some best, bestScore) =>
          if cfg.minConfidence ≤ best.confidence then
            (effs ++ [.cachedMatchWrite release.id track.position
               (some best.trackId) best.confidence],
             .ok (some best, save_matched_track cache release.id track.position
               track.artist track.title "spotify" (some best.trackId)
               best.confidence now))
          else
            (effs ++ [.cachedMatchWrite release.id track.position none bestScore],
             .ok (none, save_matched_track cache release.id track.position
               track.artist track.title "spotify" none bestScore now))
        | (none, bestScore) =>
          (effs ++ [.cachedMatchWrite release.id track.position none bestScore],
           .ok (none, save_matched_track cache release.id track.position
             track.artist track.title "spotify" none bestScore now))

/-- `OperationType` (engine.py lines 25-31). -/
inductive OpType
  | create_playlist | delete_playlist | add_track | remove_track
deriving DecidableEq, Repr

/-- `SyncOperation` (engine.py lines 34-54). -/
structure SyncOp where
  opType : OpType
  folderName : String
  playlistName : String
  trackTitle : String
  trackArtist : String
  confidence : Rat
  flagged : Bool
deriving DecidableEq, Repr

/-- The per-release accumulator of `process_release`
(engine.py lines 308-317). -/
structure ReleaseAcc where
  ids : Finset String
  adds : List (String × Rat × Bool)
  ops : List SyncOp
  missing : Nat
  flagged : Nat
deriving DecidableEq

/-- Empty accumulator. -/
def emptyAcc : ReleaseAcc := ⟨∅, [], [], 0, 0⟩

/-- Merging of worker results into the folder totals
(engine.py lines 366-372). -/
def mergeAcc (a b : ReleaseAcc) : ReleaseAcc :=
  ⟨a.ids ∪ b.ids, a.adds ++ b.adds, a.ops ++ b.ops,
   a.missing + b.missing, a.flagged + b.flagged⟩

/-- `SyncResult` (engine.py lines 57-77). -/
structure SyncResultM where
  operations : List SyncOp
  playlistsCreated : Nat
  playlistsDeleted : Nat
  tracksAdded : Nat
  tracksRemoved : Nat
  tracksMissing : Nat
  tracksFlagged : Nat
deriving DecidableEq, Repr

/-- A fresh `SyncResult()`. -/
def emptyResult : SyncResultM := ⟨[], 0, 0, 0, 0, 0, 0⟩

/-- Folder-loop aggregation of `_sync` (engine.py lines 224-229). -/
def mergeResult (a b : SyncResultM) : SyncResultM :=
  ⟨a.operations ++ b.operations, a.playlistsCreated + b.playlistsCreated,
   a.playlistsDeleted + b.playlistsDeleted, a.tracksAdded + b.tracksAdded,
   a.tracksRemoved + b.tracksRemoved, a.tracksMissing + b.tracksMissing,
   a.tracksFlagged + b.tracksFlagged⟩

/-- The persistent store state the engine reads back during a run. -/
structure DBState where
  mappings : List FolderMappingRow
  cache : List CachedMatchRow
deriving DecidableEq

/-- The per-track body of `process_release` (engine.py lines 321-359), over a
release's track list: accepted matches accumulate ids, add-tuples and
`ADD_TRACK` operations (flagging those below `high_confidence`); `None`
results count as missing and write a `missing_tracks` row.  An exception
aborts the release (the executor re-raises it from `future.result()`). -/
def process_tracks (C : PlaylistClientScript) (ctx : MatchContext)
    (cfg : EngineSettings) (folder : Folder) (playlistName : String)
    (release : Release) :
    List Track → List CachedMatchRow → Int →
    List Effect × Except String (ReleaseAcc × List CachedMatchRow)
  | [], cache, _ => ([], .ok (emptyAcc, cache))
  | t :: rest, cache, now =>
    match find_track_match C ctx cfg cache t release now with
    | (effs, .error e) => (effs, .error e)
    | (effs, .ok (some m, cache1)) =>
      let flagged := decide (m.confidence < cfg.highConfidence)
      let op : SyncOp :=
        ⟨.add_track, folder.name, playlistName, t.title, t.artist, m.confidence, flagged⟩
      match process_tracks C ctx cfg folder playlistName release rest cache1 now with
      | (effs2, .error e) => (effs ++ effs2, .error e)
      | (effs2, .ok (acc, cache2)) =>
        (effs ++ effs2,
         .ok (⟨insert m.trackId acc.ids, (m.trackId, m.confidence, flagged) :: acc.adds,
           op :: acc.ops, acc.missing, (if flagged then 1 else 0) + acc.flagged⟩, cache2))
    | (effs, .ok (none, cache1)) =>
      match process_tracks C ctx cfg folder playlistName release rest cache1 now with
      | (effs2, .error e) =>
        (effs ++ [.missingTrackWrite release.id folder.id t.title] ++ effs2, .error e)
      | (effs2, .ok (acc, cache2)) =>
        (effs ++ [.missingTrackWrite release.id folder.id t.title] ++ effs2,
         .ok (⟨acc.ids, acc.adds, acc.ops, acc.missing + 1, acc.flagged⟩, cache2))

/-- The release fan-out of `_sync_folder` (engine.py lines 308-372), modelled
in submission order; a raised exception from any release aborts the folder. -/
def process_releases (D : DiscogsScript) (C : PlaylistClientScript)
    (ctx : MatchContext) (cfg : EngineSettings) (folder : Folder)
    (playlistName : String) :
    List Release → List CachedMatchRow → Int →
    List Effect × Except String (ReleaseAcc × List CachedMatchRow)
  | [], cache, _ => ([], .ok (emptyAcc, cache))
  | rel :: rest, cache, now =>
    match D.getReleaseTracks rel.id with
    | .error e => ([], .error e)
    | .ok tracks =>
      match process_tracks C ctx cfg folder playlistName rel tracks cache now with
      | (effs, .error e) => (effs, .error e)
      | (effs, .ok (acc1, cache1)) =>
        match process_releases D C ctx cfg folder playlistName rest cache1 now with
        | (effs2, .error e) => (effs ++ effs2, .error e)
        | (effs2, .ok (acc2, cache2)) =>
          (effs ++ effs2, .ok (mergeAcc acc1 acc2, cache2))

/-- The playlist lookup of `_sync_folder` (engine.py lines 277-281): only a
stored mapping triggers a name-based `find_playlist_by_name` call. -/
def find_playlist_phase (C : PlaylistClientScript)
    (mapping : Option FolderMappingRow) :
    List Effect × Except String (Option Playlist) :=
  match mapping with
  | some m =>
    match C.findPlaylistByName m.playlistName with
    | .error e => ([.findPlaylistCall m.playlistName], .error e)
    | .ok pl => ([.findPlaylistCall m.playlistName], .ok pl)
  | none => ([], .ok none)

/-- The create block of `_sync_folder` (engine.py lines 283-303): with no live
playlist, emit a CREATE_PLAYLIST operation and count it; unless dry-run,
create the playlist and persist the folder mapping. -/
def create_phase (C : PlaylistClientScript) (folder : Folder)
    (playlistName : String) (playlist : Option Playlist) (dry : Bool)
    (ms : List FolderMappingRow) :
    List Effect ×
      Except String (Option Playlist × List FolderMappingRow × List SyncOp × Nat) :=
  match playlist with
  | some p => ([], .ok (some p, ms, [], 0))
  | none =>
    let op : SyncOp := ⟨.create_playlist, folder.name, playlistName, "", "", 0, false⟩
    if dry then ([], .ok (none, ms, [op], 1))
    else
      match C.createPlaylist playlistName
        ("Synced from Discogs folder: " ++ folder.name) with
      | .error e => ([.createPlaylistCall playlistName], .error e)
      | .ok p =>
        ([.createPlaylistCall playlistName,
          .folderMappingWrite folder.id p.id playlistName],
         .ok (some p,
           save_folder_mapping ms folder.id folder.name "spotify" p.id playlistName,
           [op], 1))

/-- The reconcile block of `_sync_folder` (engine.py lines 374-392, spotify
branch): only with a live playlist and not dry-run, fetch current ids, compute
the additions (from `tracks_to_add`) and removals (current ids outside the
desired set, set-iteration modelled as deduplicated fetch order), and issue
the batch calls when non-empty.  Returns (tracks added, tracks removed). -/
def reconcile_phase (C : PlaylistClientScript) (playlist : Option Playlist)
    (dry : Bool) (adds : List (String × Rat × Bool)) (desired : Finset String) :
    List Effect × Except String (Nat × Nat) :=
  match playlist, dry with
  | some p, false =>
    match C.getPlaylistTracks p.id with
    | .error e => ([.getTracksCall p.id], .error e)
    | .ok current =>
      let currentIds := current.toFinset
      let idsToAdd := compute_ids_to_add adds currentIds
      let removeList := current.dedup.filter (fun tid => decide (tid ∉ desired))
      let addUris := idsToAdd.map (fun tid => "spotify:track:" ++ tid)
      let removeUris := removeList.map (fun tid => "spotify:track:" ++ tid)
      if idsToAdd = [] then
        if removeList = [] then ([.getTracksCall p.id], .ok (0, 0))
        else
          match C.removeTracks p.id removeUris with
          | .error e =>
            ([.getTracksCall p.id, .removeTracksCall p.id removeUris], .error e)
          | .ok _ =>
            ([.getTracksCall p.id, .removeTracksCall p.id removeUris],
             .ok (0, removeList.length))
      else
        match C.addTracks p.id addUris with
        | .error e =>
          ([.getTracksCall p.id, .addTracksCall p.id addUris], .error e)
        | .ok _ =>
          if removeList = [] then
            ([.getTracksCall p.id, .addTracksCall p.id addUris],
             .ok (idsToAdd.length, 0))
          else
            match C.removeTracks p.id removeUris with
            | .error e =>
              ([.getTracksCall p.id, .addTracksCall p.id addUris,
                .removeTracksCall p.id removeUris], .error e)
            | .ok _ =>
              ([.getTracksCall p.id, .addTracksCall p.id addUris,
                .removeTracksCall p.id removeUris],
               .ok (idsToAdd.length, removeList.length))
  | _, _ => ([], .ok (0, 0))

/-- `_sync_folder` (engine.py lines 243-410): fetch releases (wantlist or
folder), early-return when empty, look up mapping and live playlist, create
block, release fan-out, reconcile block, and the unconditional
`update_folder_releases` write (line 408, not guarded by dry-run). -/
def sync_folder (D : DiscogsScript) (C : PlaylistClientScript)
    (ctx : MatchContext) (cfg : EngineSettings) (folder : Folder) (dry : Bool)
    (st : DBState) (now : Int) :
    List Effect × Except String (SyncResultM × DBState) :=
  match
    (if folder.id = WANTLIST_FOLDER_ID then D.getWantlistReleases
     else D.getFolderReleases folder.id) with
  | .error e => ([], .error e)
  | .ok releases =>
    if releases = [] then ([], .ok (emptyResult, st))
    else
      let playlistName := cfg.playlistPfx ++ folder.name
      match find_playlist_phase C (get_folder_mapping st.mappings folder.id "spotify") with
      | (effsF, .error e) => (effsF, .error e)
      | (effsF, .ok playlist0) =>
        match create_phase C folder playlistName playlist0 dry st.mappings with
        | (effsC, .error e) => (effsF ++ effsC, .error e)
        | (effsC, .ok (playlist1, ms1, opsC, created)) =>
          match process_releases D C ctx cfg folder playlistName releases st.cache now with
          | (effsR, .error e) => (effsF ++ effsC ++ effsR, .error e)
          | (effsR, .ok (acc, cache1)) =>
            match reconcile_phase C playlist1 dry acc.adds acc.ids with
            | (effsRec, .error e) => (effsF ++ effsC ++ effsR ++ effsRec, .error e)
            | (effsRec, .ok (nAdd, nRem)) =>
              (effsF ++ effsC ++ effsR ++ effsRec ++
                 [.folderReleasesWrite folder.id (releases.map (fun r => r.id))],
               .ok ({ operations := opsC ++ acc.ops, playlistsCreated := created,
                      playlistsDeleted := 0, tracksAdded := nAdd,
                      tracksRemoved := nRem, tracksMissing := acc.missing,
                      tracksFlagged := acc.flagged },
                    { mappings := ms1, cache := cache1 }))

/-- The folder loop of `_sync` (engine.py lines 216-229): folders processed
sequentially with no exception handling — a raised exception from one folder
aborts the loop. -/
def sync_folders (D : DiscogsScript) (C : PlaylistClientScript)
    (ctx : MatchContext) (cfg : EngineSettings) :
    List Folder → Bool → DBState → Int →
    List Effect × Except String (SyncResultM × DBState)
  | [], _, st, _ => ([], .ok (emptyResult, st))
  | f :: rest, dry, st, now =>
    match sync_folder D C ctx cfg f dry st now with
    | (effs, .error e) => (effs, .error e)
    | (effs, .ok (r1, st1)) =>
      match sync_folders D C ctx cfg rest dry st1 now with
      | (effs2, .error e) => (effs ++ effs2, .error e)
      | (effs2, .ok (r2, st2)) => (effs ++ effs2, .ok (mergeResult r1 r2, st2))

/-- `_cleanup_deleted_folders` (engine.py lines 549-589), iterating over the
snapshot returned by `get_all_folder_mappings`: mappings whose folder id is
not in the current folder-id set emit a DELETE_PLAYLIST operation and, unless
dry-run, delete the live playlist (when found by name) and the mapping row. -/
def cleanup_deleted_folders (C : PlaylistClientScript) :
    List FolderMappingRow → List FolderMappingRow → List Int → Bool →
    List Effect × Except String (List SyncOp × Nat × List FolderMappingRow)
  | [], ms, _, _ => ([], .ok ([], 0, ms))
  | m :: rest, ms, currentIds, dry =>
    if m.folderId ∈ currentIds then
      cleanup_deleted_folders C rest ms currentIds dry
    else
      let op : SyncOp := ⟨.delete_playlist, m.folderName, m.playlistName, "", "", 0, false⟩
      if dry then
        match cleanup_deleted_folders C rest ms currentIds dry with
        | (effs, .error e) => (effs, .error e)
        | (effs, .ok (ops, n, ms2)) => (effs, .ok (op :: ops, n + 1, ms2))
      else
        match C.findPlaylistByName m.playlistName with
        | .error e => ([.findPlaylistCall m.playlistName], .error e)
        | .ok found =>
          let delEffs :=
            match found with
            | some p => [Effect.findPlaylistCall m.playlistName,
                Effect.deletePlaylistCall p.id]
            | none => [Effect.findPlaylistCall m.playlistName]
          match (match found with
            | some p => C.deletePlaylist p.id
            | none => Except.ok ()) with
          | .error e => (delEffs, .error e)
          | .ok _ =>
            match cleanup_deleted_folders C rest
              (delete_folder_mapping ms m.folderId "spotify") currentIds dry with
            | (effs, .error e) =>
              (delEffs ++ [.folderMappingDelete m.folderId] ++ effs, .error e)
            | (effs, .ok (ops, n, ms2)) =>
              (delEffs ++ [.folderMappingDelete m.folderId] ++ effs,
               .ok (op :: ops, n + 1, ms2))

/-- The current folder list of `_sync` (engine.py lines 201-212): the fetched
folders, filtered by name when a non-empty filter is given, with the synthetic
wantlist folder appended when requested. -/
def current_folders (allFolders : List Folder) (folderNames : List String)
    (includeWantlist : Bool) : List Folder :=
  let filtered :=
    if folderNames = [] then allFolders
    else allFolders.filter (fun f => decide (f.name ∈ folderNames))
  if includeWantlist then filtered ++ [wantlistFolder] else filtered

/-- `_sync` (engine.py lines 172-241): fetch and filter folders, sync each in
order, then clean up mappings whose folder ids are absent from the current
folder-id set.  No exception handling anywhere: any raised exception
propagates to the caller. -/
def sync (D : DiscogsScript) (C : PlaylistClientScript) (ctx : MatchContext)
    (cfg : EngineSettings) (includeWantlist : Bool) (folderNames : List String)
    (dry : Bool) (st : DBState) (now : Int) :
    List Effect × Except String (SyncResultM × DBState) :=
  match D.getFolders with
  | .error e => ([], .error e)
  | .ok allFolders =>
    let folders := current_folders allFolders folderNames includeWantlist
    match sync_folders D C ctx cfg folders dry st now with
    | (effs, .error e) => (effs, .error e)
    | (effs, .ok (res, st1)) =>
      match cleanup_deleted_folders C (get_all_folder_mappings st1.mappings "spotify")
        st1.mappings (folders.map (fun f => f.id)) dry with
      | (effs2, .error e) => (effs ++ effs2, .error e)
      | (effs2, .ok (ops2, nDel, ms2)) =>
        (effs ++ effs2,
         .ok ({ operations := res.operations ++ ops2,
                playlistsCreated := res.playlistsCreated,
                playlistsDeleted := res.playlistsDeleted + nDel,
                tracksAdded := res.tracksAdded, tracksRemoved := res.tracksRemoved,
                tracksMissing := res.tracksMissing,
                tracksFlagged := res.tracksFlagged },
              { mappings := ms2, cache := st1.cache }))

/-! ## Total (exception-free) collaborator scripts -/

/-- Whether an `Except` value is a success. -/
def exceptOk {α : Type} (e : Except String α) : Bool :=
  match e with
  | .ok _ => true
  | .error _ => false

/-- Collaborator behaviors given as total functions: a scripted environment in
which no client or catalog call raises. -/
structure TotalScripts where
  folders : List Folder
  folderReleases : Int → List Release
  wantlist : List Release
  releaseTracks : Int → List Track
  search : String → List Candidate
  findPl : String → Option Playlist
  createPl : String → String → Playlist
  getTracks : String → List String

/-- The Discogs script of a total environment. -/
def mkDiscogs (T : TotalScripts) : DiscogsScript :=
  ⟨.ok T.folders, fun fid => .ok (T.folderReleases fid), .ok T.wantlist,
   fun rid => .ok (T.releaseTracks rid)⟩

/-- The playlist-client script of a total environment. -/
def mkClient (T : TotalScripts) : PlaylistClientScript :=
  ⟨fun q => .ok (T.search q), fun n => .ok (T.findPl n),
   fun n d => .ok (T.createPl n d), fun _ => .ok (),
   fun p => .ok (T.getTracks p), fun _ _ => .ok (), fun _ _ => .ok ()⟩

/-- With a total client, the search phase never raises. -/
theorem search_phase_ok (T : TotalScripts) (parsed : ParsedTrack) :
    exceptOk (search_phase (mkClient T) parsed).2 = true := by
  simp only [search_phase, mkClient]
  split <;> rfl

/-- With a total client, the resolver never raises. -/
theorem find_track_match_ok (T : TotalScripts) (ctx : MatchContext)
    (cfg : EngineSettings) (cache : List CachedMatchRow) (track : Track)
    (release : Release) (now : Int) :
    exceptOk (find_track_match (mkClient T) ctx cfg cache track release now).2 = true := by
  rw [find_track_match]
  cases hc : cache_hit cache release.id track.position now with
  | some v => obtain ⟨tid, conf⟩ := v; rfl
  | none =>
    rcases hs : search_phase (mkClient T) (ctx.parse track.title track.artist)
      with ⟨effs, r⟩
    cases r with
    | error e =>
      exfalso
      have h := search_phase_ok T (ctx.parse track.title track.artist)
      rw [hs] at h
      simp [exceptOk] at h
    | ok results =>
      by_cases hres : results.isEmpty
      · simp only [hres, if_true]
        rfl
      · simp only [hres]
        rcases hsl : score_loop ctx (ctx.parse track.title track.artist) results none 0
          with ⟨bestOpt, bestScore⟩
        cases bestOpt with
        | some best =>
          by_cases hmin : cfg.minConfidence ≤ best.confidence
          · simp only [hsl, hmin, if_true]
            rfl
          · simp only [hsl, hmin, if_false]
            rfl
        | none =>
          simp only [hsl]
          rfl

/-- With a total client, per-track processing never raises. -/
theorem process_tracks_ok (T : TotalScripts) (ctx : MatchContext)
    (cfg : EngineSettings) (folder : Folder) (playlistName : String)
    (release : Release) :
    ∀ (tracks : List Track) (cache : List CachedMatchRow) (now : Int),
      exceptOk (process_tracks (mkClient T) ctx cfg folder playlistName release
        tracks cache now).2 = true := by
  intro tracks
  induction tracks with
  | nil => intro cache now; rfl
  | cons t rest ih =>
    intro cache now
    rw [process_tracks]
    rcases hf : find_track_match (mkClient T) ctx cfg cache t release now
      with ⟨effs, r⟩
    cases r with
    | error e =>
      exfalso
      have h := find_track_match_ok T ctx cfg cache t release now
      rw [hf] at h
      simp [exceptOk] at h
    | ok p =>
      obtain ⟨mOpt, cache1⟩ := p
      cases mOpt with
      | some m =>
        rcases hr : process_tracks (mkClient T) ctx cfg folder playlistName release
          rest cache1 now with ⟨effs2, r2⟩
        cases r2 with
        | error e2 =>
          exfalso
          have h := ih cache1 now
          rw [hr] at h
          simp [exceptOk] at h
        | ok q =>
          try dsimp only
          rw [hr]
          rfl
      | none =>
        rcases hr : process_tracks (mkClient T) ctx cfg folder playlistName release
          rest cache1 now with ⟨effs2, r2⟩
        cases r2 with
        | error e2 =>
          exfalso
          have h := ih cache1 now
          rw [hr] at h
          simp [exceptOk] at h
        | ok q =>
          try dsimp only
          rw [hr]
          rfl

/-- With total collaborators, the release fan-out never raises. -/
theorem process_releases_ok (T : TotalScripts) (ctx : MatchContext)
    (cfg : EngineSettings) (folder : Folder) (playlistName : String) :
    ∀ (rels : List Release) (cache : List CachedMatchRow) (now : Int),
      exceptOk (process_releases (mkDiscogs T) (mkClient T) ctx cfg folder
        playlistName rels cache now).2 = true := by
  intro rels
  induction rels with
  | nil => intro cache now; rfl
  | cons rel rest ih =>
    intro cache now
    rw [process_releases]
    show exceptOk ((match process_tracks (mkClient T) ctx cfg folder playlistName rel
      (T.releaseTracks rel.id) cache now with
      | (effs, .error e) => (effs, Except.error e)
      | (effs, .ok (acc1, cache1)) =>
        match process_releases (mkDiscogs T) (mkClient T) ctx cfg folder playlistName
          rest cache1 now with
        | (effs2, .error e) => (effs ++ effs2, Except.error e)
        | (effs2, .ok (acc2, cache2)) =>
          (effs ++ effs2, Except.ok (mergeAcc acc1 acc2, cache2))).2) = true
    rcases ht : process_tracks (mkClient T) ctx cfg folder playlistName rel
      (T.releaseTracks rel.id) cache now with ⟨effs, r⟩
    cases r with
    | error e =>
      exfalso
      have h := process_tracks_ok T ctx cfg folder playlistName rel
        (T.releaseTracks rel.id) cache now
      rw [ht] at h
      simp [exceptOk] at h
    | ok p =>
      obtain ⟨acc1, cache1⟩ := p
      rcases hr : process_releases (mkDiscogs T) (mkClient T) ctx cfg folder
        playlistName rest cache1 now with ⟨effs2, r2⟩
      cases r2 with
      | error e2 =>
        exfalso
        have h := ih cache1 now
        rw [hr] at h
        simp [exceptOk] at h
      | ok q =>
        try dsimp only
        rw [hr]
        rfl

/-- With a total client, the playlist lookup never raises. -/
theorem find_playlist_phase_ok (T : TotalScripts)
    (mapping : Option FolderMappingRow) :
    exceptOk (find_playlist_phase (mkClient T) mapping).2 = true := by
  cases mapping with
  | none => rfl
  | some m => rfl

/-- With a total client, the create block never raises. -/
theorem create_phase_ok (T : TotalScripts) (folder : Folder)
    (playlistName : String) (playlist : Option Playlist) (dry : Bool)
    (ms : List FolderMappingRow) :
    exceptOk (create_phase (mkClient T) folder playlistName playlist dry ms).2 = true := by
  cases playlist with
  | some p => rfl
  | none => cases dry <;> rfl

/-- With a total client, the reconcile block never raises. -/
theorem reconcile_phase_ok (T : TotalScripts) (playlist : Option Playlist)
    (dry : Bool) (adds : List (String × Rat × Bool)) (desired : Finset String) :
    exceptOk (reconcile_phase (mkClient T) playlist dry adds desired).2 = true := by
  cases playlist with
  | none => cases dry <;> rfl
  | some p =>
    cases dry with
    | true => rfl
    | false =>
      dsimp only [reconcile_phase, mkClient]
      split
      · split
        · rfl
        · rfl
      · split
        · rfl
        · rfl

/-- Projection of the total Discogs script: folder list. -/
theorem mkDiscogs_getFolders (T : TotalScripts) :
    (mkDiscogs T).getFolders = .ok T.folders := rfl

/-- Projection of the total Discogs script: wantlist releases. -/
theorem mkDiscogs_wantlist (T : TotalScripts) :
    (mkDiscogs T).getWantlistReleases = .ok T.wantlist := rfl

/-- Projection of the total Discogs script: folder releases. -/
theorem mkDiscogs_folderReleases (T : TotalScripts) (fid : Int) :
    (mkDiscogs T).getFolderReleases fid = .ok (T.folderReleases fid) := rfl

/-- With total collaborators, a folder sync never raises. -/
theorem sync_folder_ok (T : TotalScripts) (ctx : MatchContext)
    (cfg : EngineSettings) (folder : Folder) (dry : Bool) (st : DBState)
    (now : Int) :
    exceptOk (sync_folder (mkDiscogs T) (mkClient T) ctx cfg folder dry st now).2 = true := by
  rw [sync_folder]
  by_cases hw : folder.id = WANTLIST_FOLDER_ID
  case pos =>
    rw [if_pos hw, mkDiscogs_wantlist]
    try dsimp only
    by_cases hrel : T.wantlist = []
    · rw [if_pos hrel]
      rfl
    · rw [if_neg hrel]
      rcases hfp : find_playlist_phase (mkClient T)
        (get_folder_mapping st.mappings folder.id "spotify") with ⟨effsF, r⟩
      cases r with
      | error e =>
        exfalso
        have h := find_playlist_phase_ok T
          (get_folder_mapping st.mappings folder.id "spotify")
        rw [hfp] at h
        simp [exceptOk] at h
      | ok playlist0 =>
        try dsimp only
        rcases hcp : create_phase (mkClient T) folder (cfg.playlistPfx ++ folder.name)
          playlist0 dry st.mappings with ⟨effsC, rc⟩
        cases rc with
        | error e =>
          exfalso
          have h := create_phase_ok T folder (cfg.playlistPfx ++ folder.name)
            playlist0 dry st.mappings
          rw [hcp] at h
          simp [exceptOk] at h
        | ok pc =>
          obtain ⟨playlist1, ms1, opsC, created⟩ := pc
          try dsimp only
          rcases hpr : process_releases (mkDiscogs T) (mkClient T) ctx cfg folder
            (cfg.playlistPfx ++ folder.name) T.wantlist st.cache now with ⟨effsR, rr⟩
          cases rr with
          | error e =>
            exfalso
            have h := process_releases_ok T ctx cfg folder
              (cfg.playlistPfx ++ folder.name) T.wantlist st.cache now
            rw [hpr] at h
            simp [exceptOk] at h
          | ok pr =>
            obtain ⟨acc, cache1⟩ := pr
            try dsimp only
            rcases hrec : reconcile_phase (mkClient T) playlist1 dry acc.adds acc.ids
              with ⟨effsRec, rrec⟩
            cases rrec with
            | error e =>
              exfalso
              have h := reconcile_phase_ok T playlist1 dry acc.adds acc.ids
              rw [hrec] at h
              simp [exceptOk] at h
            | ok nn => rfl
  case neg =>
    rw [if_neg hw, mkDiscogs_folderReleases]
    try dsimp only
    by_cases hrel : T.folderReleases folder.id = []
    · rw [if_pos hrel]
      rfl
    · rw [if_neg hrel]
      rcases hfp : find_playlist_phase (mkClient T)
        (get_folder_mapping st.mappings folder.id "spotify") with ⟨effsF, r⟩
      cases r with
      | error e =>
        exfalso
        have h := find_playlist_phase_ok T
          (get_folder_mapping st.mappings folder.id "spotify")
        rw [hfp] at h
        simp [exceptOk] at h
      | ok playlist0 =>
        try dsimp only
        rcases hcp : create_phase (mkClient T) folder (cfg.playlistPfx ++ folder.name)
          playlist0 dry st.mappings with ⟨effsC, rc⟩
        cases rc with
        | error e =>
          exfalso
          have h := create_phase_ok T folder (cfg.playlistPfx ++ folder.name)
            playlist0 dry st.mappings
          rw [hcp] at h
          simp [exceptOk] at h
        | ok pc =>
          obtain ⟨playlist1, ms1, opsC, created⟩ := pc
          try dsimp only
          rcases hpr : process_releases (mkDiscogs T) (mkClient T) ctx cfg folder
            (cfg.playlistPfx ++ folder.name) (T.folderReleases folder.id) st.cache now
            with ⟨effsR, rr⟩
          cases rr with
          | error e =>
            exfalso
            have h := process_releases_ok T ctx cfg folder
              (cfg.playlistPfx ++ folder.name) (T.folderReleases folder.id) st.cache now
            rw [hpr] at h
            simp [exceptOk] at h
          | ok pr =>
            obtain ⟨acc, cache1⟩ := pr
            try dsimp only
            rcases hrec : reconcile_phase (mkClient T) playlist1 dry acc.adds acc.ids
              with ⟨effsRec, rrec⟩
            cases rrec with
            | error e =>
              exfalso
              have h := reconcile_phase_ok T playlist1 dry acc.adds acc.ids
              rw [hrec] at h
              simp [exceptOk] at h
            | ok nn => rfl

/-- With total collaborators, the folder loop never raises. -/
theorem sync_folders_ok (T : TotalScripts) (ctx : MatchContext)
    (cfg : EngineSettings) :
    ∀ (folders : List Folder) (dry : Bool) (st : DBState) (now : Int),
      exceptOk (sync_folders (mkDiscogs T) (mkClient T) ctx cfg folders dry st now).2
        = true := by
  intro folders
  induction folders with
  | nil => intro dry st now; rfl
  | cons f rest ih =>
    intro dry st now
    rw [sync_folders]
    rcases hsf : sync_folder (mkDiscogs T) (mkClient T) ctx cfg f dry st now
      with ⟨effs, r⟩
    cases r with
    | error e =>
      exfalso
      have h := sync_folder_ok T ctx cfg f dry st now
      rw [hsf] at h
      simp [exceptOk] at h
    | ok p =>
      obtain ⟨r1, st1⟩ := p
      try dsimp only
      rcases hrest : sync_folders (mkDiscogs T) (mkClient T) ctx cfg rest dry st1 now
        with ⟨effs2, r2⟩
      cases r2 with
      | error e2 =>
        exfalso
        have h := ih dry st1 now
        rw [hrest] at h
        simp [exceptOk] at h
      | ok q => rfl

/-- Projection of the total client: playlist lookup. -/
theorem mkClient_findPl (T : TotalScripts) (n : String) :
    (mkClient T).findPlaylistByName n = .ok (T.findPl n) := rfl

/-- Projection of the total client: playlist deletion. -/
theorem mkClient_deletePl (T : TotalScripts) (p : String) :
    (mkClient T).deletePlaylist p = .ok () := rfl

/-- With a total client, the deleted-folder cleanup never raises. -/
theorem cleanup_deleted_folders_ok (T : TotalScripts) :
    ∀ (snapshot ms : List FolderMappingRow) (currentIds : List Int) (dry : Bool),
      exceptOk (cleanup_deleted_folders (mkClient T) snapshot ms currentIds dry).2
        = true := by
  intro snapshot
  induction snapshot with
  | nil => intro ms currentIds dry; rfl
  | cons m rest ih =>
    intro ms currentIds dry
    rw [cleanup_deleted_folders]
    by_cases hin : m.folderId ∈ currentIds
    · simp only [hin, if_true]
      exact ih ms currentIds dry
    · simp only [hin, if_false]
      cases dry with
      | true =>
        try dsimp only
        rcases hrest : cleanup_deleted_folders (mkClient T) rest ms currentIds true
          with ⟨effs, r⟩
        cases r with
        | error e =>
          exfalso
          have h := ih ms currentIds true
          rw [hrest] at h
          simp [exceptOk] at h
        | ok q => rfl
      | false =>
        rw [mkClient_findPl]
        try dsimp only
        cases hfound : T.findPl m.playlistName with
        | some p =>
          try dsimp only
          rw [mkClient_deletePl]
          try dsimp only
          rcases hrest : cleanup_deleted_folders (mkClient T) rest
            (delete_folder_mapping ms m.folderId "spotify") currentIds false
            with ⟨effs, r⟩
          cases r with
          | error e =>
            exfalso
            have h := ih (delete_folder_mapping ms m.folderId "spotify") currentIds false
            rw [hrest] at h
            simp [exceptOk] at h
          | ok q =>
            try rw [hrest]
            rfl
        | none =>
          try dsimp only
          rcases hrest : cleanup_deleted_folders (mkClient T) rest
            (delete_folder_mapping ms m.folderId "spotify") currentIds false
            with ⟨effs, r⟩
          cases r with
          | error e =>
            exfalso
            have h := ih (delete_folder_mapping ms m.folderId "spotify") currentIds false
            rw [hrest] at h
            simp [exceptOk] at h
          | ok q =>
            try rw [hrest]
            rfl

/-- C2 amended: the engine contains no exception handling, so failure
isolation holds only for match failures, not for exceptions.  A track that
merely fails to match (no exception) is counted as missing and processing
continues, and whenever no collaborator call raises, `sync` completes and
returns a `SyncResult`; but an exception raised while resolving or adding a
single track aborts the enclosing folder and the entire run (see the
counterexample theorem), propagating to the caller instead of being summarized
in a `SyncResult`. -/
theorem sync_total_returns_result (T : TotalScripts) (ctx : MatchContext)
    (cfg : EngineSettings) (includeWantlist : Bool) (folderNames : List String)
    (dry : Bool) (st : DBState) (now : Int) :
    exceptOk (sync (mkDiscogs T) (mkClient T) ctx cfg includeWantlist folderNames
      dry st now).2 = true := by
  rw [sync, mkDiscogs_getFolders]
  try dsimp only
  rcases hsf : sync_folders (mkDiscogs T) (mkClient T) ctx cfg
    (current_folders T.folders folderNames includeWantlist) dry st now with ⟨effs, r⟩
  cases r with
  | error e =>
    exfalso
    have h := sync_folders_ok T ctx cfg
      (current_folders T.folders folderNames includeWantlist) dry st now
    rw [hsf] at h
    simp [exceptOk] at h
  | ok p =>
    obtain ⟨res, st1⟩ := p
    try dsimp only
    rcases hcl : cleanup_deleted_folders (mkClient T)
      (get_all_folder_mappings st1.mappings "spotify") st1.mappings
      ((current_folders T.folders folderNames includeWantlist).map (fun f => f.id))
      dry with ⟨effs2, r2⟩
    cases r2 with
    | error e2 =>
      exfalso
      have h := cleanup_deleted_folders_ok T
        (get_all_folder_mappings st1.mappings "spotify") st1.mappings
        ((current_folders T.folders folderNames includeWantlist).map (fun f => f.id))
        dry
      rw [hcl] at h
      simp [exceptOk] at h
    | ok q =>
      try rw [hcl]
      rfl

/-- Catalog script for the failure-isolation counterexample: two folders, one
release each, one track per release. -/
def cexDiscogs : DiscogsScript :=
  ⟨.ok [⟨1, "A", 0⟩, ⟨2, "B", 0⟩], fun _ => .ok [⟨100, "R", "Ar"⟩], .ok [],
   fun _ => .ok [⟨"A1", "T", "Ar"⟩]⟩

/-- Client script for the failure-isolation counterexample: every track search
raises. -/
def cexClient : PlaylistClientScript :=
  ⟨fun _ => .error "network error during track search",
   fun _ => .ok none, fun n _ => .ok ⟨"pl1", n⟩, fun _ => .ok (),
   fun _ => .ok [], fun _ _ => .ok (), fun _ _ => .ok ()⟩

/-- A trivial parser/scorer context for concrete runs: titles parse to
themselves with no version, every candidate scores 1. -/
def cexCtx : MatchContext :=
  ⟨fun title artist => ⟨title, "", .original, "", title, artist⟩, fun _ _ => 1⟩

/-- Engine settings with the source defaults `min_confidence = 0.30`,
`high_confidence = 0.50`, `playlist_prefix = "Discogs - "`. -/
def cexCfg : EngineSettings :=
  ⟨"Discogs - ", ⟨3, 10, by decide, by decide⟩, ⟨1, 2, by decide, by decide⟩⟩

/-- C2 counterexample: failure isolation does not hold.  With two folders and
a client whose track search raises, the exception raised while resolving the
single track of folder "A" aborts that folder's sync, prevents folder "B" from
being synced at all (the effect trace ends inside folder "A"), and `sync`
propagates the exception to its caller instead of returning a `SyncResult`;
the track is not counted as missing. -/
theorem sync_exception_propagates :
    (sync cexDiscogs cexClient cexCtx cexCfg false [] false ⟨[], []⟩ 0).2
      = .error "network error during track search" ∧
    (sync cexDiscogs cexClient cexCtx cexCfg false [] false ⟨[], []⟩ 0).1
      = [Effect.createPlaylistCall "Discogs - A",
         Effect.folderMappingWrite 1 "pl1" "Discogs - A",
         Effect.searchCall "Ar T"] := by
  constructor <;> rfl

/-- Number of `search_tracks` calls in an effect trace. -/
def searchCallCount (effs : List Effect) : Nat :=
  (effs.filter fun e => match e with | .searchCall _ => true | _ => false).length

/-- Number of `matched_tracks` writes in an effect trace. -/
def cacheWriteCount (effs : List Effect) : Nat :=
  (effs.filter fun e =>
    match e with | .cachedMatchWrite _ _ _ _ => true | _ => false).length

/-- The search phase never writes a cache row. -/
theorem search_phase_writes (C : PlaylistClientScript) (parsed : ParsedTrack) :
    cacheWriteCount (search_phase C parsed).1 = 0 := by
  rw [search_phase]
  cases h : C.searchTracks parsed.searchQuery with
  | error e => rfl
  | ok res =>
    try dsimp only
    split
    · cases h2 : C.searchTracks parsed.fallbackQuery with
      | error e2 => rfl
      | ok res2 => rfl
    · rfl

/-- A fresh save is an immediate cache hit for its own key (the saved row is
current, pending and carries the accepted id). -/
theorem cache_hit_after_save (cache : List CachedMatchRow) (releaseId : Int)
    (pos artist trackName tid : String) (conf : Rat) (now : Int)
    (hid : tid ≠ "") :
    cache_hit (save_matched_track cache releaseId pos artist trackName "spotify"
      (some tid) conf now) releaseId pos now = some (tid, conf) := by
  have hvis : cacheRowVisible releaseId pos "spotify" now 30
      ⟨releaseId, pos, artist, trackName, "spotify", some tid, conf, now,
       some "pending"⟩ = true := by
    simp [cacheRowVisible]
  rw [cache_hit, get_cached_match, save_matched_track,
    List.find?_cons_of_pos _ hvis]
  simp [hid]

/-- C5 amended: a cache-missing resolution writes exactly one `matched_tracks`
row, and when it accepts a match (non-empty platform id stored), the second
call for the same key is a pure cache read — no search calls, no writes, no
state change, same match returned.  (The original claim's "exactly one search
total" fails: a single resolution may lawfully issue two searches
(primary + fallback), and a resolution that found no acceptable match caches a
NULL-id row which `_find_track_match` does not treat as a hit, so the second
call searches again — see the counterexample.) -/
theorem resolver_idempotent_after_accept (T : TotalScripts) (ctx : MatchContext)
    (cfg : EngineSettings) (cache : List CachedMatchRow) (track : Track)
    (release : Release) (now : Int) (m : MatchRes)
    (cache1 : List CachedMatchRow) (effs : List Effect)
    (hmiss : cache_hit cache release.id track.position now = none)
    (hrun : find_track_match (mkClient T) ctx cfg cache track release now
      = (effs, .ok (some m, cache1)))
    (hid : m.trackId ≠ "") :
    cacheWriteCount effs = 1 ∧
    find_track_match (mkClient T) ctx cfg cache1 track release now
      = ([], .ok (some m, cache1)) := by
  rw [find_track_match, hmiss] at hrun
  rcases hs : search_phase (mkClient T) (ctx.parse track.title track.artist)
    with ⟨effsS, rs⟩
  rw [hs] at hrun
  have hw := search_phase_writes (mkClient T) (ctx.parse track.title track.artist)
  rw [hs] at hw
  cases rs with
  | error e =>
    exfalso
    have h := search_phase_ok T (ctx.parse track.title track.artist)
    rw [hs] at h
    simp [exceptOk] at h
  | ok results =>
    dsimp only at hrun
    by_cases hres : results.isEmpty
    · rw [if_pos hres] at hrun
      simp at hrun
    · rw [if_neg hres] at hrun
      rcases hsl : score_loop ctx (ctx.parse track.title track.artist) results none 0
        with ⟨bestOpt, bestScore⟩
      rw [hsl] at hrun
      cases bestOpt with
      | none => simp at hrun
      | some best =>
        dsimp only at hrun
        by_cases hmin : cfg.minConfidence ≤ best.confidence
        · rw [if_pos hmin] at hrun
          have heffs : effsS ++ [Effect.cachedMatchWrite release.id track.position
              (some best.trackId) best.confidence] = effs := congrArg Prod.fst hrun
          have hrest := congrArg Prod.snd hrun
          simp only at hrest
          have hbm : best = m := by
            have := congrArg (fun x =>
              match x with
              | Except.ok (some mm, _) => mm
              | _ => best) hrest
            simpa using this
          have hc1 : save_matched_track cache release.id track.position track.artist
              track.title "spotify" (some best.trackId) best.confidence now = cache1 := by
            have := congrArg (fun x =>
              match x with
              | Except.ok (_, c) => c
              | _ => cache) hrest
            simpa using this
          constructor
          · rw [← heffs]
            simp only [cacheWriteCount, List.filter_append, List.length_append] at hw ⊢
            simp [hw]
          · subst hbm
            have hch := cache_hit_after_save cache release.id track.position
              track.artist track.title best.trackId best.confidence now hid
            rw [hc1] at hch
            rw [find_track_match, hch]
        · rw [if_neg hmin] at hrun
          simp at hrun

/-- Track used by the concrete resolver scenarios. -/
def cexTrack : Track := ⟨"A1", "T", "Ar"⟩

/-- Release used by the concrete resolver scenarios. -/
def cexRelease : Release := ⟨100, "R", "Ar"⟩

/-- A client whose searches always succeed with zero results. -/
def cexEmptySearchClient : PlaylistClientScript :=
  ⟨fun _ => .ok [], fun _ => .ok none, fun n _ => .ok ⟨"p1", n⟩, fun _ => .ok (),
   fun _ => .ok [], fun _ _ => .ok (), fun _ _ => .ok ()⟩

/-- The miss row cached by a failed resolution of `cexTrack`. -/
def cexMissRow : CachedMatchRow :=
  ⟨100, "A1", "Ar", "T", "spotify", none, 0, 0, some "pending"⟩

/-- C5 counterexample: resolver idempotence fails as claimed.  With searches
that return no results, the first call issues two search calls (primary and
fallback) and caches a NULL-id miss row; the second call, with that fresh
unexpired row in cache and no review action in between, is not a pure cache
read: it issues two further searches.  Four search calls in total, not one. -/
theorem resolver_reresolves_cached_miss :
    find_track_match cexEmptySearchClient cexCtx cexCfg [] cexTrack cexRelease 0
      = ([.searchCall "Ar T", .searchCall "Ar T",
          .cachedMatchWrite 100 "A1" none 0], .ok (none, [cexMissRow])) ∧
    find_track_match cexEmptySearchClient cexCtx cexCfg [cexMissRow] cexTrack
      cexRelease 0
      = ([.searchCall "Ar T", .searchCall "Ar T",
          .cachedMatchWrite 100 "A1" none 0], .ok (none, [cexMissRow])) ∧
    searchCallCount [Effect.searchCall "Ar T", Effect.searchCall "Ar T",
        Effect.cachedMatchWrite 100 "A1" none 0] +
      searchCallCount [Effect.searchCall "Ar T", Effect.searchCall "Ar T",
        Effect.cachedMatchWrite 100 "A1" none 0] = 4 := by
  exact ⟨rfl, rfl, rfl⟩

/-- Total scripts whose search returns one verified candidate. -/
def cexAcceptScripts : TotalScripts :=
  ⟨[], fun _ => [], [], fun _ => [],
   fun _ => [⟨"t1", "Song T", "Ar", 50, "uri1", true⟩],
   fun _ => none, fun n _ => ⟨"p1", n⟩, fun _ => []⟩

/-- The accepted row cached by a successful resolution of `cexTrack`. -/
def cexAcceptRow : CachedMatchRow :=
  ⟨100, "A1", "Ar", "T", "spotify", some "t1", 1, 0, some "pending"⟩

/-- Witness for C5's amended theorem at a concrete accepting run. -/
theorem resolver_idempotent_after_accept_witness :
    cacheWriteCount [Effect.searchCall "Ar T",
      Effect.cachedMatchWrite 100 "A1" (some "t1") 1] = 1 ∧
    find_track_match (mkClient cexAcceptScripts) cexCtx cexCfg [cexAcceptRow]
      cexTrack cexRelease 0 = ([], .ok (some ⟨"t1", 1⟩, [cexAcceptRow])) :=
  resolver_idempotent_after_accept cexAcceptScripts cexCtx cexCfg [] cexTrack
    cexRelease 0 ⟨"t1", 1⟩ [cexAcceptRow]
    [Effect.searchCall "Ar T", Effect.cachedMatchWrite 100 "A1" (some "t1") 1]
    (by rfl) (by rfl) (by decide)

/-! ## Stale-mapping cleanup under a folder-name filter (C9) -/

/-- A row with a different folder id is unaffected by `save_folder_mapping`. -/
theorem mem_save_folder_mapping_of_ne {x : FolderMappingRow}
    (ms : List FolderMappingRow) (fid : Int) (fname d pid pname : String)
    (hne : x.folderId ≠ fid) :
    x ∈ save_folder_mapping ms fid fname d pid pname ↔ x ∈ ms := by
  rw [save_folder_mapping, List.mem_append]
  constructor
  · rintro (h | h)
    · exact (List.mem_filter.mp h).1
    · simp only [List.mem_singleton] at h
      subst h
      exact absurd rfl hne
  · intro h
    left
    rw [List.mem_filter]
    refine ⟨h, ?_⟩
    simp [hne]

/-- No mapping with the deleted key survives `delete_folder_mapping`. -/
theorem get_folder_mapping_delete_self (ms : List FolderMappingRow) (fid : Int) :
    get_folder_mapping (delete_folder_mapping ms fid "spotify") fid "spotify" = none := by
  rw [get_folder_mapping, List.find?_eq_none]
  intro x hx
  rw [delete_folder_mapping, List.mem_filter] at hx
  have h2 := hx.2
  simp only [Bool.not_eq_eq_eq_not, Bool.not_true, Bool.and_eq_false_iff,
    decide_eq_false_iff_not] at h2
  simp only [Bool.and_eq_true, decide_eq_true_eq, not_and]
  tauto

/-- Absence of a mapping key is preserved by shrinking the table. -/
theorem get_folder_mapping_none_mono (ms1 ms2 : List FolderMappingRow)
    (fid : Int) (d : String) (hsub : ∀ x ∈ ms2, x ∈ ms1)
    (h : get_folder_mapping ms1 fid d = none) :
    get_folder_mapping ms2 fid d = none := by
  rw [get_folder_mapping, List.find?_eq_none] at h ⊢
  intro x hx
  exact h x (hsub x hx)

/-- Shape of the create block on a total client: it never raises, and it
changes the mapping table only by an insert-or-replace at the folder's own
key. -/
theorem create_phase_shape (T : TotalScripts) (folder : Folder)
    (playlistName : String) (playlist : Option Playlist) (dry : Bool)
    (ms : List FolderMappingRow) :
    ∃ effs pl1 ms1 ops n,
      create_phase (mkClient T) folder playlistName playlist dry ms
        = (effs, .ok (pl1, ms1, ops, n)) ∧
      (ms1 = ms ∨ ∃ pid, ms1 = save_folder_mapping ms folder.id folder.name
        "spotify" pid playlistName) := by
  cases playlist with
  | some p => exact ⟨_, _, _, _, _, rfl, Or.inl rfl⟩
  | none =>
    cases dry with
    | true => exact ⟨_, _, _, _, _, rfl, Or.inl rfl⟩
    | false =>
      exact ⟨_, _, _, _, _, rfl, Or.inr ⟨_, rfl⟩⟩

/-- Shape of a folder sync on total collaborators: it never raises, and it
changes the mapping table only by an insert-or-replace at the folder's own
key. -/
theorem sync_folder_total_shape (T : TotalScripts) (ctx : MatchContext)
    (cfg : EngineSettings) (folder : Folder) (dry : Bool) (st : DBState)
    (now : Int) :
    ∃ effs r st1,
      sync_folder (mkDiscogs T) (mkClient T) ctx cfg folder dry st now
        = (effs, .ok (r, st1)) ∧
      (st1.mappings = st.mappings ∨ ∃ pid, st1.mappings = save_folder_mapping
        st.mappings folder.id folder.name "spotify" pid
        (cfg.playlistPfx ++ folder.name)) := by
  rw [sync_folder]
  by_cases hw : folder.id = WANTLIST_FOLDER_ID
  case pos =>
    rw [if_pos hw, mkDiscogs_wantlist]
    try dsimp only
    by_cases hrel : T.wantlist = []
    · rw [if_pos hrel]
      exact ⟨_, _, _, rfl, Or.inl rfl⟩
    · rw [if_neg hrel]
      rcases hfp : find_playlist_phase (mkClient T)
        (get_folder_mapping st.mappings folder.id "spotify") with ⟨effsF, r⟩
      cases r with
      | error e =>
        exfalso
        have h := find_playlist_phase_ok T
          (get_folder_mapping st.mappings folder.id "spotify")
        rw [hfp] at h
        simp [exceptOk] at h
      | ok playlist0 =>
        try dsimp only
        obtain ⟨effsC, pl1, ms1, opsC, n, hcp, hms⟩ := create_phase_shape T folder
          (cfg.playlistPfx ++ folder.name) playlist0 dry st.mappings
        rw [hcp]
        try dsimp only
        rcases hpr : process_releases (mkDiscogs T) (mkClient T) ctx cfg folder
          (cfg.playlistPfx ++ folder.name) T.wantlist st.cache now with ⟨effsR, rr⟩
        cases rr with
        | error e =>
          exfalso
          have h := process_releases_ok T ctx cfg folder
            (cfg.playlistPfx ++ folder.name) T.wantlist st.cache now
          rw [hpr] at h
          simp [exceptOk] at h
        | ok pr =>
          obtain ⟨acc, cache1⟩ := pr
          try dsimp only
          rcases hrec : reconcile_phase (mkClient T) pl1 dry acc.adds acc.ids
            with ⟨effsRec, rrec⟩
          cases rrec with
          | error e =>
            exfalso
            have h := reconcile_phase_ok T pl1 dry acc.adds acc.ids
            rw [hrec] at h
            simp [exceptOk] at h
          | ok nn => exact ⟨_, _, _, rfl, hms⟩
  case neg =>
    rw [if_neg hw, mkDiscogs_folderReleases]
    try dsimp only
    by_cases hrel : T.folderReleases folder.id = []
    · rw [if_pos hrel]
      exact ⟨_, _, _, rfl, Or.inl rfl⟩
    · rw [if_neg hrel]
      rcases hfp : find_playlist_phase (mkClient T)
        (get_folder_mapping st.mappings folder.id "spotify") with ⟨effsF, r⟩
      cases r with
      | error e =>
        exfalso
        have h := find_playlist_phase_ok T
          (get_folder_mapping st.mappings folder.id "spotify")
        rw [hfp] at h
        simp [exceptOk] at h
      | ok playlist0 =>
        try dsimp only
        obtain ⟨effsC, pl1, ms1, opsC, n, hcp, hms⟩ := create_phase_shape T folder
          (cfg.playlistPfx ++ folder.name) playlist0 dry st.mappings
        rw [hcp]
        try dsimp only
        rcases hpr : process_releases (mkDiscogs T) (mkClient T) ctx cfg folder
          (cfg.playlistPfx ++ folder.name) (T.folderReleases folder.id) st.cache now
          with ⟨effsR, rr⟩
        cases rr with
        | error e =>
          exfalso
          have h := process_releases_ok T ctx cfg folder
            (cfg.playlistPfx ++ folder.name) (T.folderReleases folder.id) st.cache now
          rw [hpr] at h
          simp [exceptOk] at h
        | ok pr =>
          obtain ⟨acc, cache1⟩ := pr
          try dsimp only
          rcases hrec : reconcile_phase (mkClient T) pl1 dry acc.adds acc.ids
            with ⟨effsRec, rrec⟩
          cases rrec with
          | error e =>
            exfalso
            have h := reconcile_phase_ok T pl1 dry acc.adds acc.ids
            rw [hrec] at h
            simp [exceptOk] at h
          | ok nn => exact ⟨_, _, _, rfl, hms⟩

/-- Shape of the folder loop on total collaborators: it never raises, and a
mapping row whose folder id is not among the processed folders' ids is in the
final table iff it was in the initial one. -/
theorem sync_folders_total_spec (T : TotalScripts) (ctx : MatchContext)
    (cfg : EngineSettings) :
    ∀ (folders : List Folder) (dry : Bool) (st : DBState) (now : Int),
      ∃ effs r st1,
        sync_folders (mkDiscogs T) (mkClient T) ctx cfg folders dry st now
          = (effs, .ok (r, st1)) ∧
        (∀ x : FolderMappingRow, (∀ f ∈ folders, x.folderId ≠ f.id) →
          (x ∈ st1.mappings ↔ x ∈ st.mappings)) := by
  intro folders
  induction folders with
  | nil =>
    intro dry st now
    exact ⟨[], emptyResult, st, rfl, fun x _ => Iff.rfl⟩
  | cons f rest ih =>
    intro dry st now
    rw [sync_folders]
    obtain ⟨effs1, r1, stMid, heq1, hms⟩ :=
      sync_folder_total_shape T ctx cfg f dry st now
    rw [heq1]
    try dsimp only
    obtain ⟨effs2, r2, st2, heq2, hpres⟩ := ih dry stMid now
    rw [heq2]
    try dsimp only
    refine ⟨_, _, _, rfl, ?_⟩
    intro x hx
    have htail : ∀ g ∈ rest, x.folderId ≠ g.id :=
      fun g hg => hx g (List.mem_cons_of_mem f hg)
    have hhead : x.folderId ≠ f.id := hx f (List.mem_cons_self _ _)
    refine (hpres x htail).trans ?_
    rcases hms with hms | ⟨pid, hms⟩
    · rw [hms]
    · rw [hms]
      exact mem_save_folder_mapping_of_ne st.mappings f.id f.name "spotify" pid
        (cfg.playlistPfx ++ f.name) hhead

/-- Full specification of the cleanup pass on a total client: it never
raises, it only removes mapping rows, and every snapshot row whose folder id
is outside the current id set gets a DELETE_PLAYLIST operation and — unless
dry-run — a mapping-row deletion, a live-playlist deletion when the playlist
is found by name, and an absent mapping key afterwards. -/
theorem cleanup_total_spec (T : TotalScripts) :
    ∀ (snapshot ms : List FolderMappingRow) (cur : List Int) (dry : Bool),
      ∃ effs ops n ms2,
        cleanup_deleted_folders (mkClient T) snapshot ms cur dry
          = (effs, .ok (ops, n, ms2)) ∧
        (∀ x ∈ ms2, x ∈ ms) ∧
        (∀ m ∈ snapshot, m.folderId ∉ cur →
          (⟨.delete_playlist, m.folderName, m.playlistName, "", "", 0, false⟩ :
            SyncOp) ∈ ops ∧
          (dry = false → Effect.folderMappingDelete m.folderId ∈ effs ∧
            (∀ p, T.findPl m.playlistName = some p →
              Effect.deletePlaylistCall p.id ∈ effs) ∧
            get_folder_mapping ms2 m.folderId "spotify" = none)) := by
  intro snapshot
  induction snapshot with
  | nil =>
    intro ms cur dry
    exact ⟨[], [], 0, ms, rfl, fun x hx => hx, fun m hm => absurd hm (by simp)⟩
  | cons a rest ih =>
    intro ms cur dry
    rw [cleanup_deleted_folders]
    by_cases hin : a.folderId ∈ cur
    · rw [if_pos hin]
      obtain ⟨effs, ops, n, ms2, heq, hsub, hmem⟩ := ih ms cur dry
      refine ⟨effs, ops, n, ms2, heq, hsub, ?_⟩
      intro m hm hout
      rcases List.mem_cons.mp hm with rfl | hm
      · exact absurd hin hout
      · exact hmem m hm hout
    · rw [if_neg hin]
      cases dry with
      | true =>
        try dsimp only
        obtain ⟨effs, ops, n, ms2, heq, hsub, hmem⟩ := ih ms cur true
        rw [heq]
        try dsimp only
        refine ⟨effs, _ :: ops, n + 1, ms2, rfl, hsub, ?_⟩
        intro m hm hout
        rcases List.mem_cons.mp hm with rfl | hm
        · exact ⟨List.mem_cons_self _ _, by simp⟩
        · obtain ⟨hop, -⟩ := hmem m hm hout
          exact ⟨List.mem_cons_of_mem _ hop, by simp⟩
      | false =>
        rw [mkClient_findPl]
        try dsimp only
        cases hfnd : T.findPl a.playlistName with
        | some p =>
          try dsimp only
          rw [mkClient_deletePl]
          try dsimp only
          obtain ⟨effs, ops, n, ms2, heq, hsub, hmem⟩ :=
            ih (delete_folder_mapping ms a.folderId "spotify") cur false
          rw [heq]
          try dsimp only
          refine ⟨_, _ :: ops, n + 1, ms2, rfl, ?_, ?_⟩
          · intro x hx
            have h1 := hsub x hx
            rw [delete_folder_mapping, List.mem_filter] at h1
            exact h1.1
          · intro m hm hout
            rcases List.mem_cons.mp hm with rfl | hm
            · refine ⟨List.mem_cons_self _ _, fun _ => ⟨by simp, ?_, ?_⟩⟩
              · intro q hq
                rw [hfnd] at hq
                injection hq with hq
                subst hq
                simp
              · exact get_folder_mapping_none_mono _ ms2 m.folderId "spotify" hsub
                  (get_folder_mapping_delete_self ms m.folderId)
            · obtain ⟨hop, hrest⟩ := hmem m hm hout
              refine ⟨List.mem_cons_of_mem _ hop, fun hd => ?_⟩
              obtain ⟨hdel, hpl, hnone⟩ := hrest hd
              refine ⟨by simp [hdel], fun q hq => by simp [hpl q hq], hnone⟩
        | none =>
          try dsimp only
          obtain ⟨effs, ops, n, ms2, heq, hsub, hmem⟩ :=
            ih (delete_folder_mapping ms a.folderId "spotify") cur false
          rw [heq]
          try dsimp only
          refine ⟨_, _ :: ops, n + 1, ms2, rfl, ?_, ?_⟩
          · intro x hx
            have h1 := hsub x hx
            rw [delete_folder_mapping, List.mem_filter] at h1
            exact h1.1
          · intro m hm hout
            rcases List.mem_cons.mp hm with rfl | hm
            · refine ⟨List.mem_cons_self _ _, fun _ => ⟨by simp, ?_, ?_⟩⟩
              · intro q hq
                rw [hfnd] at hq
                cases hq
              · exact get_folder_mapping_none_mono _ ms2 m.folderId "spotify" hsub
                  (get_folder_mapping_delete_self ms m.folderId)
            · obtain ⟨hop, hrest⟩ := hmem m hm hout
              refine ⟨List.mem_cons_of_mem _ hop, fun hd => ?_⟩
              obtain ⟨hdel, hpl, hnone⟩ := hrest hd
              refine ⟨by simp [hdel], fun q hq => by simp [hpl q hq], hnone⟩

/-- C9: with a non-empty folder-name filter, every stored FolderMapping for
the destination whose folder id is absent from the filtered current folder-id
set — even one whose folder still exists in the catalog — is treated as a
deleted folder by the cleanup step: a DELETE_PLAYLIST operation is emitted for
it, and unless dry-run its mapping row is removed (the key is absent from the
final table) and its live playlist, when found by name, is deleted. -/
theorem filtered_folders_are_deleted (T : TotalScripts) (ctx : MatchContext)
    (cfg : EngineSettings) (iw : Bool) (names : List String) (dry : Bool)
    (st : DBState) (now : Int) (m : FolderMappingRow)
    (_hnames : names ≠ [])
    (hm : m ∈ st.mappings) (hdest : m.dest = "spotify")
    (hexcl : m.folderId ∉ (current_folders T.folders names iw).map (fun f => f.id)) :
    ∃ effs res st2,
      sync (mkDiscogs T) (mkClient T) ctx cfg iw names dry st now
        = (effs, .ok (res, st2)) ∧
      (⟨.delete_playlist, m.folderName, m.playlistName, "", "", 0, false⟩ :
        SyncOp) ∈ res.operations ∧
      (dry = false → Effect.folderMappingDelete m.folderId ∈ effs ∧
        (∀ p, T.findPl m.playlistName = some p →
          Effect.deletePlaylistCall p.id ∈ effs) ∧
        get_folder_mapping st2.mappings m.folderId "spotify" = none) := by
  rw [sync, mkDiscogs_getFolders]
  try dsimp only
  obtain ⟨effs1, r1, st1, heq1, hpres⟩ := sync_folders_total_spec T ctx cfg
    (current_folders T.folders names iw) dry st now
  rw [heq1]
  try dsimp only
  obtain ⟨effs2, ops2, n2, ms2, heq2, hsub2, hmem2⟩ := cleanup_total_spec T
    (get_all_folder_mappings st1.mappings "spotify") st1.mappings
    ((current_folders T.folders names iw).map (fun f => f.id)) dry
  rw [heq2]
  try dsimp only
  have hids : ∀ f ∈ current_folders T.folders names iw, m.folderId ≠ f.id := by
    intro f hf heq
    exact hexcl (List.mem_map.mpr ⟨f, hf, heq.symm⟩)
  have hmSt1 : m ∈ st1.mappings := (hpres m hids).mpr hm
  have hmSnap : m ∈ get_all_folder_mappings st1.mappings "spotify" := by
    rw [get_all_folder_mappings, List.mem_filter]
    exact ⟨hmSt1, by simp [hdest]⟩
  obtain ⟨hop, hdry⟩ := hmem2 m hmSnap hexcl
  refine ⟨_, _, _, rfl, ?_, ?_⟩
  · exact List.mem_append.mpr (Or.inr hop)
  · intro hdryf
    obtain ⟨hdel, hpl, hnone⟩ := hdry hdryf
    exact ⟨List.mem_append.mpr (Or.inr hdel),
      fun p hp => List.mem_append.mpr (Or.inr (hpl p hp)), hnone⟩

/-- Scripts for the filter-cleanup scenario: two catalog folders "A" and "B",
both with no releases, and a live playlist for the stored "B" mapping. -/
def cexFilterScripts : TotalScripts :=
  ⟨[⟨1, "A", 0⟩, ⟨2, "B", 0⟩], fun _ => [], [], fun _ => [],
   fun _ => [], fun _ => some ⟨"plB", "Discogs - B"⟩, fun n _ => ⟨"pl", n⟩,
   fun _ => []⟩

/-- The stored mapping row for catalog folder "B". -/
def cexMappingB : FolderMappingRow := ⟨2, "B", "spotify", "plB", "Discogs - B"⟩

/-- Witness for C9's theorem: syncing with filter `["A"]` deletes the mapped
playlist of folder "B" although "B" still exists in the catalog. -/
theorem filtered_folders_are_deleted_witness :
    ∃ effs res st2,
      sync (mkDiscogs cexFilterScripts) (mkClient cexFilterScripts) cexCtx cexCfg
        false ["A"] false ⟨[cexMappingB], []⟩ 0 = (effs, .ok (res, st2)) ∧
      (⟨.delete_playlist, "B", "Discogs - B", "", "", 0, false⟩ : SyncOp)
        ∈ res.operations ∧
      (false = false → Effect.folderMappingDelete 2 ∈ effs ∧
        (∀ p, cexFilterScripts.findPl "Discogs - B" = some p →
          Effect.deletePlaylistCall p.id ∈ effs) ∧
        get_folder_mapping st2.mappings 2 "spotify" = none) :=
  filtered_folders_are_deleted cexFilterScripts cexCtx cexCfg false ["A"] false
    ⟨[cexMappingB], []⟩ 0 cexMappingB (by decide) (by decide) (by decide) (by decide)

/-! ## Dry-run frame conditions (C6) -/

/-- Mutating playlist-client calls: create/delete playlist, add/remove
tracks. -/
def isMutatingClientCall : Effect → Bool
  | .createPlaylistCall _ => true
  | .deletePlaylistCall _ => true
  | .addTracksCall _ _ => true
  | .removeTracksCall _ _ => true
  | _ => false

/-- `folder_mappings` writes (insert-or-replace and delete). -/
def isFolderMappingWrite : Effect → Bool
  | .folderMappingWrite _ _ _ => true
  | .folderMappingDelete _ => true
  | _ => false

/-- Resolution-outcome writes: `matched_tracks` and `missing_tracks` rows. -/
def isResolutionWrite : Effect → Bool
  | .cachedMatchWrite _ _ _ _ => true
  | .missingTrackWrite _ _ _ => true
  | _ => false

/-- `folder_releases` snapshot writes. -/
def isFolderReleasesWrite : Effect → Bool
  | .folderReleasesWrite _ _ => true
  | _ => false

/-- The search phase issues no mutating client calls and no mapping writes. -/
theorem search_phase_effects_classes (C : PlaylistClientScript)
    (parsed : ParsedTrack) :
    (search_phase C parsed).1.filter isMutatingClientCall = [] ∧
    (search_phase C parsed).1.filter isFolderMappingWrite = [] := by
  rw [search_phase]
  cases h : C.searchTracks parsed.searchQuery with
  | error e => exact ⟨rfl, rfl⟩
  | ok res =>
    try dsimp only
    split
    · cases h2 : C.searchTracks parsed.fallbackQuery with
      | error e2 => exact ⟨rfl, rfl⟩
      | ok res2 => exact ⟨rfl, rfl⟩
    · exact ⟨rfl, rfl⟩

/-- The resolver issues no mutating client calls and no mapping writes. -/
theorem find_track_match_effects_classes (C : PlaylistClientScript)
    (ctx : MatchContext) (cfg : EngineSettings) (cache : List CachedMatchRow)
    (track : Track) (release : Release) (now : Int) :
    (find_track_match C ctx cfg cache track release now).1.filter
      isMutatingClientCall = [] ∧
    (find_track_match C ctx cfg cache track release now).1.filter
      isFolderMappingWrite = [] := by
  rw [find_track_match]
  cases hc : cache_hit cache release.id track.position now with
  | some v => obtain ⟨tid, conf⟩ := v; exact ⟨rfl, rfl⟩
  | none =>
    rcases hs : search_phase C (ctx.parse track.title track.artist) with ⟨effsS, rs⟩
    have hS := search_phase_effects_classes C (ctx.parse track.title track.artist)
    rw [hs] at hS
    cases rs with
    | error e => exact hS
    | ok results =>
      try dsimp only
      by_cases hres : results.isEmpty
      · rw [if_pos hres]
        simp [List.filter_append, hS.1, hS.2, isMutatingClientCall,
          isFolderMappingWrite]
      · rw [if_neg hres]
        rcases hsl : score_loop ctx (ctx.parse track.title track.artist) results
          none 0 with ⟨bestOpt, bestScore⟩
        cases bestOpt with
        | some best =>
          try dsimp only
          by_cases hmin : cfg.minConfidence ≤ best.confidence
          · rw [if_pos hmin]
            simp [List.filter_append, hS.1, hS.2, isMutatingClientCall,
              isFolderMappingWrite]
          · rw [if_neg hmin]
            simp [List.filter_append, hS.1, hS.2, isMutatingClientCall,
              isFolderMappingWrite]
        | none =>
          try dsimp only
          simp [List.filter_append, hS.1, hS.2, isMutatingClientCall,
            isFolderMappingWrite]

/-- Per-track processing issues no mutating client calls and no mapping
writes. -/
theorem process_tracks_effects_classes (C : PlaylistClientScript)
    (ctx : MatchContext) (cfg : EngineSettings) (folder : Folder)
    (playlistName : String) (release : Release) :
    ∀ (tracks : List Track) (cache : List CachedMatchRow) (now : Int),
      (process_tracks C ctx cfg folder playlistName release tracks cache now).1.filter
        isMutatingClientCall = [] ∧
      (process_tracks C ctx cfg folder playlistName release tracks cache now).1.filter
        isFolderMappingWrite = [] := by
  intro tracks
  induction tracks with
  | nil => intro cache now; exact ⟨rfl, rfl⟩
  | cons t rest ih =>
    intro cache now
    rw [process_tracks]
    rcases hf : find_track_match C ctx cfg cache t release now with ⟨effs, r⟩
    have hF := find_track_match_effects_classes C ctx cfg cache t release now
    rw [hf] at hF
    cases r with
    | error e => exact hF
    | ok p =>
      obtain ⟨mOpt, cache1⟩ := p
      cases mOpt with
      | some m =>
        try dsimp only
        rcases hr : process_tracks C ctx cfg folder playlistName release rest
          cache1 now with ⟨effs2, r2⟩
        have hR := ih cache1 now
        rw [hr] at hR
        cases r2 with
        | error e2 => simp [List.filter_append, hF.1, hF.2, hR.1, hR.2]
        | ok q => simp [List.filter_append, hF.1, hF.2, hR.1, hR.2]
      | none =>
        try dsimp only
        rcases hr : process_tracks C ctx cfg folder playlistName release rest
          cache1 now with ⟨effs2, r2⟩
        have hR := ih cache1 now
        rw [hr] at hR
        cases r2 with
        | error e2 =>
          simp [List.filter_append, hF.1, hF.2, hR.1, hR.2,
            isMutatingClientCall, isFolderMappingWrite]
        | ok q =>
          simp [List.filter_append, hF.1, hF.2, hR.1, hR.2,
            isMutatingClientCall, isFolderMappingWrite]

/-- The release fan-out issues no mutating client calls and no mapping
writes. -/
theorem process_releases_effects_classes (D : DiscogsScript)
    (C : PlaylistClientScript) (ctx : MatchContext) (cfg : EngineSettings)
    (folder : Folder) (playlistName : String) :
    ∀ (rels : List Release) (cache : List CachedMatchRow) (now : Int),
      (process_releases D C ctx cfg folder playlistName rels cache now).1.filter
        isMutatingClientCall = [] ∧
      (process_releases D C ctx cfg folder playlistName rels cache now).1.filter
        isFolderMappingWrite = [] := by
  intro rels
  induction rels with
  | nil => intro cache now; exact ⟨rfl, rfl⟩
  | cons rel rest ih =>
    intro cache now
    rw [process_releases]
    cases ht : D.getReleaseTracks rel.id with
    | error e => exact ⟨rfl, rfl⟩
    | ok tracks =>
      try dsimp only
      rcases hp : process_tracks C ctx cfg folder playlistName rel tracks cache now
        with ⟨effs, r⟩
      have hP := process_tracks_effects_classes C ctx cfg folder playlistName rel
        tracks cache now
      rw [hp] at hP
      cases r with
      | error e => exact hP
      | ok p =>
        obtain ⟨acc1, cache1⟩ := p
        try dsimp only
        rcases hr : process_releases D C ctx cfg folder playlistName rest cache1 now
          with ⟨effs2, r2⟩
        have hR := ih cache1 now
        rw [hr] at hR
        cases r2 with
        | error e2 => simp [List.filter_append, hP.1, hP.2, hR.1, hR.2]
        | ok q => simp [List.filter_append, hP.1, hP.2, hR.1, hR.2]

/-- The playlist lookup issues no mutating client calls and no mapping
writes. -/
theorem find_playlist_phase_effects_classes (C : PlaylistClientScript)
    (mapping : Option FolderMappingRow) :
    (find_playlist_phase C mapping).1.filter isMutatingClientCall = [] ∧
    (find_playlist_phase C mapping).1.filter isFolderMappingWrite = [] := by
  cases mapping with
  | none => exact ⟨rfl, rfl⟩
  | some m =>
    rw [find_playlist_phase]
    cases h : C.findPlaylistByName m.playlistName with
    | error e => exact ⟨rfl, rfl⟩
    | ok pl => exact ⟨rfl, rfl⟩

/-- In dry-run the create block performs no effects at all. -/
theorem create_phase_dry_effects (C : PlaylistClientScript) (folder : Folder)
    (playlistName : String) (playlist : Option Playlist)
    (ms : List FolderMappingRow) :
    (create_phase C folder playlistName playlist true ms).1 = [] := by
  cases playlist with
  | some p => rfl
  | none => rfl

/-- The create block writes no resolution rows and no `folder_releases`
rows. -/
theorem create_phase_effects_classes (C : PlaylistClientScript) (folder : Folder)
    (playlistName : String) (playlist : Option Playlist) (dry : Bool)
    (ms : List FolderMappingRow) :
    (create_phase C folder playlistName playlist dry ms).1.filter
      isResolutionWrite = [] ∧
    (create_phase C folder playlistName playlist dry ms).1.filter
      isFolderReleasesWrite = [] := by
  cases playlist with
  | some p => exact ⟨rfl, rfl⟩
  | none =>
    cases dry with
    | true => exact ⟨rfl, rfl⟩
    | false =>
      rw [create_phase]
      try dsimp only
      cases h : C.createPlaylist playlistName
        ("Synced from Discogs folder: " ++ folder.name) with
      | error e => exact ⟨rfl, rfl⟩
      | ok p => exact ⟨rfl, rfl⟩

/-- In dry-run the reconcile block does nothing. -/
theorem reconcile_phase_dry (C : PlaylistClientScript)
    (playlist : Option Playlist) (adds : List (String × Rat × Bool))
    (desired : Finset String) :
    reconcile_phase C playlist true adds desired = ([], .ok (0, 0)) := by
  cases playlist <;> rfl

/-- The reconcile block writes no resolution rows and no `folder_releases`
rows. -/
theorem reconcile_phase_effects_classes (C : PlaylistClientScript)
    (playlist : Option Playlist) (dry : Bool)
    (adds : List (String × Rat × Bool)) (desired : Finset String) :
    (reconcile_phase C playlist dry adds desired).1.filter isResolutionWrite = [] ∧
    (reconcile_phase C playlist dry adds desired).1.filter isFolderReleasesWrite
      = [] := by
  cases playlist with
  | none => cases dry <;> exact ⟨rfl, rfl⟩
  | some p =>
    cases dry with
    | true => exact ⟨rfl, rfl⟩
    | false =>
      rw [reconcile_phase]
      cases h : C.getPlaylistTracks p.id with
      | error e => exact ⟨rfl, rfl⟩
      | ok current =>
        try dsimp only
        split
        · split
          · exact ⟨rfl, rfl⟩
          · cases h2 : C.removeTracks p.id _ with
            | error e => exact ⟨rfl, rfl⟩
            | ok u => exact ⟨rfl, rfl⟩
        · cases h2 : C.addTracks p.id _ with
          | error e => exact ⟨rfl, rfl⟩
          | ok u =>
            try dsimp only
            split
            · exact ⟨rfl, rfl⟩
            · cases h3 : C.removeTracks p.id _ with
              | error e => exact ⟨rfl, rfl⟩
              | ok u2 => exact ⟨rfl, rfl⟩

/-- `find?` over an append when the left part has no hit. -/
theorem find?_append_none {α : Type} (p : α → Bool) :
    ∀ (l1 l2 : List α), l1.find? p = none → (l1 ++ l2).find? p = l2.find? p := by
  intro l1
  induction l1 with
  | nil => intro l2 _; rfl
  | cons a t ih =>
    intro l2 h
    by_cases hp : p a = true
    · rw [List.find?_cons_of_pos _ hp] at h
      simp at h
    · rw [List.find?_cons_of_neg _ (by simpa using hp)] at h
      rw [List.cons_append, List.find?_cons_of_neg _ (by simpa using hp)]
      exact ih l2 h

/-- `find?` over an append when the left part hits. -/
theorem find?_append_some {α : Type} (p : α → Bool) :
    ∀ (l1 l2 : List α) (v : α), l1.find? p = some v → (l1 ++ l2).find? p = some v := by
  intro l1
  induction l1 with
  | nil => intro l2 v h; simp at h
  | cons a t ih =>
    intro l2 v h
    by_cases hp : p a = true
    · rw [List.find?_cons_of_pos _ hp] at h
      rw [List.cons_append, List.find?_cons_of_pos _ hp]
      exact h
    · rw [List.find?_cons_of_neg _ (by simpa using hp)] at h
      rw [List.cons_append, List.find?_cons_of_neg _ (by simpa using hp)]
      exact ih l2 v h

/-- Removing only elements that the search predicate rejects does not change
`find?`. -/
theorem find?_filter_irrel {α : Type} (p q : α → Bool)
    (himp : ∀ x, p x = true → q x = true) :
    ∀ l : List α, (l.filter q).find? p = l.find? p := by
  intro l
  induction l with
  | nil => rfl
  | cons a t ih =>
    by_cases hq : q a = true
    · rw [List.filter_cons_of_pos hq]
      by_cases hp : p a = true
      · rw [List.find?_cons_of_pos _ hp, List.find?_cons_of_pos _ hp]
      · rw [List.find?_cons_of_neg _ (by simpa using hp),
          List.find?_cons_of_neg _ (by simpa using hp)]
        exact ih
    · rw [List.filter_cons_of_neg (by simpa using hq)]
      have hp : ¬p a = true := fun hpa => hq (himp a hpa)
      rw [List.find?_cons_of_neg _ (by simpa using hp)]
      exact ih

/-- Filters commute. -/
theorem filter_comm' {α : Type} (p q : α → Bool) (l : List α) :
    (l.filter p).filter q = (l.filter q).filter p := by
  induction l with
  | nil => rfl
  | cons a t ih =>
    by_cases hp : p a = true <;> by_cases hq : q a = true <;>
      simp [List.filter_cons, hp, hq, ih]

/-- An insert-or-replace at a different folder key does not change a mapping
lookup. -/
theorem get_folder_mapping_save_of_ne (ms : List FolderMappingRow) (fid : Int)
    (fname d pid pname : String) (K : Int) (d' : String) (hne : K ≠ fid) :
    get_folder_mapping (save_folder_mapping ms fid fname d pid pname) K d'
      = get_folder_mapping ms K d' := by
  rw [get_folder_mapping, get_folder_mapping, save_folder_mapping]
  have himp : ∀ x : FolderMappingRow,
      (x.folderId = K && x.dest = d') = true →
      (!(x.folderId = fid && x.dest = d)) = true := by
    intro x hx
    simp only [Bool.and_eq_true, decide_eq_true_eq] at hx
    have : x.folderId ≠ fid := by
      rw [hx.1]
      exact hne
    simp [this]
  have hfilter := find?_filter_irrel (fun m => m.folderId = K && m.dest = d')
    (fun m => !(m.folderId = fid && m.dest = d)) himp ms
  cases hf : (ms.filter fun m => !(m.folderId = fid && m.dest = d)).find?
      (fun m => m.folderId = K && m.dest = d') with
  | some v =>
    rw [find?_append_some _ _ _ _ hf, ← hfilter, hf]
  | none =>
    rw [find?_append_none _ _ _ hf, ← hfilter, hf]
    have hnew : ((⟨fid, fname, d, pid, pname⟩ : FolderMappingRow).folderId = K
        && (⟨fid, fname, d, pid, pname⟩ : FolderMappingRow).dest = d') = false := by
      simp
      intro h
      exact absurd h.symm hne
    rw [List.find?_cons_of_neg _ (by simp [hnew])]
    rfl

/-- An insert-or-replace at a key inside the current id set does not change
the stale-row projection. -/
theorem save_filter_not_in_cur (ms : List FolderMappingRow) (fid : Int)
    (fname d pid pn : String) (cur : List Int) (hfid : fid ∈ cur) :
    (save_folder_mapping ms fid fname d pid pn).filter
      (fun m => !(decide (m.folderId ∈ cur)))
      = ms.filter (fun m => !(decide (m.folderId ∈ cur))) := by
  rw [save_folder_mapping, List.filter_append]
  have hnew : (fun m : FolderMappingRow => !(decide (m.folderId ∈ cur)))
      ⟨fid, fname, d, pid, pn⟩ = false := by
    simp [hfid]
  have hsingle : ([(⟨fid, fname, d, pid, pn⟩ : FolderMappingRow)]).filter
      (fun m => !(decide (m.folderId ∈ cur))) = [] := by
    simp [List.filter_cons, hnew]
  rw [hsingle, List.append_nil, List.filter_filter]
  have hcongr : ∀ a ∈ ms,
      ((!(decide (a.folderId ∈ cur))) && (!(a.folderId = fid && a.dest = d)))
        = (!(decide (a.folderId ∈ cur))) := by
    intro a _
    by_cases hin : a.folderId ∈ cur
    · simp [hin]
    · have hne : a.folderId ≠ fid := fun h => hin (h ▸ hfid)
      simp [hin, hne]
  exact List.filter_congr hcongr

/-- The DELETE_PLAYLIST operation emitted for a stale mapping
(engine.py lines 573-579). -/
def deleteOpOf (m : FolderMappingRow) : SyncOp :=
  ⟨.delete_playlist, m.folderName, m.playlistName, "", "", 0, false⟩

/-- The snapshot rows whose folder id is outside the current folder-id set. -/
def staleMappings (snapshot : List FolderMappingRow) (cur : List Int) :
    List FolderMappingRow :=
  snapshot.filter (fun m => !(decide (m.folderId ∈ cur)))

/-- In dry-run the cleanup pass performs no effects and no state change, and
returns exactly one DELETE_PLAYLIST operation per stale snapshot row. -/
theorem cleanup_dry_eq (C : PlaylistClientScript) :
    ∀ (snapshot ms : List FolderMappingRow) (cur : List Int),
      cleanup_deleted_folders C snapshot ms cur true
        = ([], .ok ((staleMappings snapshot cur).map deleteOpOf,
            (staleMappings snapshot cur).length, ms)) := by
  intro snapshot
  induction snapshot with
  | nil => intro ms cur; rfl
  | cons a rest ih =>
    intro ms cur
    rw [cleanup_deleted_folders]
    by_cases hin : a.folderId ∈ cur
    · rw [if_pos hin, ih]
      have hstale : staleMappings (a :: rest) cur = staleMappings rest cur := by
        simp [staleMappings, List.filter_cons, hin]
      rw [hstale]
    · rw [if_neg hin]
      try dsimp only
      rw [ih]
      have hstale : staleMappings (a :: rest) cur = a :: staleMappings rest cur := by
        simp [staleMappings, List.filter_cons, hin]
      rw [hstale]
      rfl

/-- In a real run on a total client the cleanup pass never raises, returns
the same DELETE_PLAYLIST operations and count as a dry run over the same
snapshot, and performs no resolution writes and no `folder_releases`
writes. -/
theorem cleanup_real_spec (T : TotalScripts) :
    ∀ (snapshot ms : List FolderMappingRow) (cur : List Int),
      ∃ effs ms2,
        cleanup_deleted_folders (mkClient T) snapshot ms cur false
          = (effs, .ok ((staleMappings snapshot cur).map deleteOpOf,
              (staleMappings snapshot cur).length, ms2)) ∧
        effs.filter isResolutionWrite = [] ∧
        effs.filter isFolderReleasesWrite = [] := by
  intro snapshot
  induction snapshot with
  | nil => intro ms cur; exact ⟨[], ms, rfl, rfl, rfl⟩
  | cons a rest ih =>
    intro ms cur
    rw [cleanup_deleted_folders]
    by_cases hin : a.folderId ∈ cur
    · rw [if_pos hin]
      have hstale : staleMappings (a :: rest) cur = staleMappings rest cur := by
        simp [staleMappings, List.filter_cons, hin]
      rw [hstale]
      exact ih ms cur
    · rw [if_neg hin]
      have hstale : staleMappings (a :: rest) cur = a :: staleMappings rest cur := by
        simp [staleMappings, List.filter_cons, hin]
      rw [mkClient_findPl]
      try dsimp only
      cases hfnd : T.findPl a.playlistName with
      | some p =>
        try dsimp only
        rw [mkClient_deletePl]
        try dsimp only
        obtain ⟨effs, ms2, heq, hres, hfr⟩ :=
          ih (delete_folder_mapping ms a.folderId "spotify") cur
        rw [heq, hstale]
        try dsimp only
        refine ⟨_, ms2, rfl, ?_, ?_⟩
        · simp [List.filter_append, hres, isResolutionWrite]
        · simp [List.filter_append, hfr, isFolderReleasesWrite]
      | none =>
        try dsimp only
        obtain ⟨effs, ms2, heq, hres, hfr⟩ :=
          ih (delete_folder_mapping ms a.folderId "spotify") cur
        rw [heq, hstale]
        try dsimp only
        refine ⟨_, ms2, rfl, ?_, ?_⟩
        · simp [List.filter_append, hres, isResolutionWrite]
        · simp [List.filter_append, hfr, isFolderReleasesWrite]

/-- Equal stale projections of two mapping tables give equal stale snapshot
rows. -/
theorem staleMappings_get_all (ms ms' : List FolderMappingRow) (cur : List Int)
    (h : ms.filter (fun m => !(decide (m.folderId ∈ cur)))
       = ms'.filter (fun m => !(decide (m.folderId ∈ cur)))) :
    staleMappings (get_all_folder_mappings ms "spotify") cur
      = staleMappings (get_all_folder_mappings ms' "spotify") cur := by
  unfold staleMappings get_all_folder_mappings
  rw [filter_comm', h]
  exact (filter_comm' _ _ ms').symm

/-- Dry/real correspondence for one folder sync on total collaborators, given
equal caches and an equal mapping lookup for this folder: both runs succeed
with identical operation logs and identical created/deleted/missing/flagged
counters; the dry run leaves the mapping table unchanged, performs no mutating
client calls and no mapping writes, and performs exactly the same resolution
writes and `folder_releases` writes as the real run; the real run changes the
mapping table at most by an insert-or-replace at this folder's key. -/
theorem sync_folder_dry_real (T : TotalScripts) (ctx : MatchContext)
    (cfg : EngineSettings) (f : Folder) (stD stR : DBState) (now : Int)
    (hcache : stR.cache = stD.cache)
    (hlook : get_folder_mapping stR.mappings f.id "spotify"
      = get_folder_mapping stD.mappings f.id "spotify") :
    ∃ effsD rD stD1 effsR rR stR1,
      sync_folder (mkDiscogs T) (mkClient T) ctx cfg f true stD now
        = (effsD, .ok (rD, stD1)) ∧
      sync_folder (mkDiscogs T) (mkClient T) ctx cfg f false stR now
        = (effsR, .ok (rR, stR1)) ∧
      rD.operations = rR.operations ∧
      rD.playlistsCreated = rR.playlistsCreated ∧
      rD.playlistsDeleted = rR.playlistsDeleted ∧
      rD.tracksMissing = rR.tracksMissing ∧
      rD.tracksFlagged = rR.tracksFlagged ∧
      stD1.mappings = stD.mappings ∧
      stD1.cache = stR1.cache ∧
      (stR1.mappings = stR.mappings ∨ ∃ pid, stR1.mappings
        = save_folder_mapping stR.mappings f.id f.name "spotify" pid
            (cfg.playlistPfx ++ f.name)) ∧
      effsD.filter isMutatingClientCall = [] ∧
      effsD.filter isFolderMappingWrite = [] ∧
      effsD.filter isResolutionWrite = effsR.filter isResolutionWrite ∧
      effsD.filter isFolderReleasesWrite = effsR.filter isFolderReleasesWrite := by
  have hfetch : ∃ rels, (if f.id = WANTLIST_FOLDER_ID
      then (mkDiscogs T).getWantlistReleases
      else (mkDiscogs T).getFolderReleases f.id) = .ok rels := by
    by_cases hw : f.id = WANTLIST_FOLDER_ID
    · rw [if_pos hw, mkDiscogs_wantlist]
      exact ⟨_, rfl⟩
    · rw [if_neg hw, mkDiscogs_folderReleases]
      exact ⟨_, rfl⟩
  obtain ⟨rels, hfetch⟩ := hfetch
  unfold sync_folder
  rw [hfetch]
  try dsimp only
  by_cases hrel : rels = []
  · simp only [if_pos hrel]
    exact ⟨[], emptyResult, stD, [], emptyResult, stR, rfl, rfl, rfl, rfl, rfl,
      rfl, rfl, rfl, hcache.symm, Or.inl rfl, rfl, rfl, rfl, rfl⟩
  · simp only [if_neg hrel]
    rw [hlook]
    rcases hfp : find_playlist_phase (mkClient T)
      (get_folder_mapping stD.mappings f.id "spotify") with ⟨effsF, rfp⟩
    have hFcls := find_playlist_phase_effects_classes (mkClient T)
      (get_folder_mapping stD.mappings f.id "spotify")
    rw [hfp] at hFcls
    cases rfp with
    | error e =>
      exfalso
      have h := find_playlist_phase_ok T
        (get_folder_mapping stD.mappings f.id "spotify")
      rw [hfp] at h
      simp [exceptOk] at h
    | ok playlist0 =>
      try dsimp only
      rw [hcache]
      rcases hpr : process_releases (mkDiscogs T) (mkClient T) ctx cfg f
        (cfg.playlistPfx ++ f.name) rels stD.cache now with ⟨effsP, rp⟩
      have hPcls := process_releases_effects_classes (mkDiscogs T) (mkClient T)
        ctx cfg f (cfg.playlistPfx ++ f.name) rels stD.cache now
      rw [hpr] at hPcls
      cases rp with
      | error e =>
        exfalso
        have h := process_releases_ok T ctx cfg f (cfg.playlistPfx ++ f.name)
          rels stD.cache now
        rw [hpr] at h
        simp [exceptOk] at h
      | ok pp =>
        obtain ⟨acc, cache1⟩ := pp
        try dsimp only
        cases playlist0 with
        | some p =>
          have hcd : create_phase (mkClient T) f (cfg.playlistPfx ++ f.name)
              (some p) true stD.mappings
              = ([], .ok (some p, stD.mappings, [], 0)) := rfl
          have hcr : create_phase (mkClient T) f (cfg.playlistPfx ++ f.name)
              (some p) false stR.mappings
              = ([], .ok (some p, stR.mappings, [], 0)) := rfl
          rw [hcd, hcr]
          try dsimp only
          rw [reconcile_phase_dry]
          rcases hrec : reconcile_phase (mkClient T) (some p) false acc.adds acc.ids
            with ⟨effsRec, rrec⟩
          have hRcls := reconcile_phase_effects_classes (mkClient T) (some p) false
            acc.adds acc.ids
          rw [hrec] at hRcls
          cases rrec with
          | error e =>
            exfalso
            have h := reconcile_phase_ok T (some p) false acc.adds acc.ids
            rw [hrec] at h
            simp [exceptOk] at h
          | ok nn =>
            obtain ⟨nAdd, nRem⟩ := nn
            refine ⟨_, _, _, _, _, _, rfl, rfl, rfl, rfl, rfl, rfl, rfl, rfl,
              rfl, Or.inl rfl, ?_, ?_, ?_, ?_⟩
            · simp [List.filter_append, hFcls.1, hPcls.1, isMutatingClientCall]
            · simp [List.filter_append, hFcls.2, hPcls.2, isFolderMappingWrite]
            · simp [List.filter_append, hRcls.1, isResolutionWrite]
            · simp [List.filter_append, hRcls.2, isFolderReleasesWrite]
        | none =>
          have hcd : create_phase (mkClient T) f (cfg.playlistPfx ++ f.name)
              none true stD.mappings
              = ([], .ok (none, stD.mappings,
                  [⟨.create_playlist, f.name, cfg.playlistPfx ++ f.name, "", "",
                    0, false⟩], 1)) := rfl
          have hcr : create_phase (mkClient T) f (cfg.playlistPfx ++ f.name)
              none false stR.mappings
              = ([.createPlaylistCall (cfg.playlistPfx ++ f.name),
                  .folderMappingWrite f.id
                    (T.createPl (cfg.playlistPfx ++ f.name)
                      ("Synced from Discogs folder: " ++ f.name)).id
                    (cfg.playlistPfx ++ f.name)],
                 .ok (some (T.createPl (cfg.playlistPfx ++ f.name)
                     ("Synced from Discogs folder: " ++ f.name)),
                   save_folder_mapping stR.mappings f.id f.name "spotify"
                     (T.createPl (cfg.playlistPfx ++ f.name)
                       ("Synced from Discogs folder: " ++ f.name)).id
                     (cfg.playlistPfx ++ f.name),
                   [⟨.create_playlist, f.name, cfg.playlistPfx ++ f.name, "", "",
                     0, false⟩], 1)) := rfl
          rw [hcd, hcr]
          try dsimp only
          rw [reconcile_phase_dry]
          rcases hrec : reconcile_phase (mkClient T)
            (some (T.createPl (cfg.playlistPfx ++ f.name)
              ("Synced from Discogs folder: " ++ f.name))) false acc.adds acc.ids
            with ⟨effsRec, rrec⟩
          have hRcls := reconcile_phase_effects_classes (mkClient T)
            (some (T.createPl (cfg.playlistPfx ++ f.name)
              ("Synced from Discogs folder: " ++ f.name))) false acc.adds acc.ids
          rw [hrec] at hRcls
          cases rrec with
          | error e =>
            exfalso
            have h := reconcile_phase_ok T
              (some (T.createPl (cfg.playlistPfx ++ f.name)
                ("Synced from Discogs folder: " ++ f.name))) false acc.adds acc.ids
            rw [hrec] at h
            simp [exceptOk] at h
          | ok nn =>
            obtain ⟨nAdd, nRem⟩ := nn
            refine ⟨_, _, _, _, _, _, rfl, rfl, rfl, rfl, rfl, rfl, rfl, rfl,
              rfl, Or.inr ⟨_, rfl⟩, ?_, ?_, ?_, ?_⟩
            · simp [List.filter_append, hFcls.1, hPcls.1, isMutatingClientCall]
            · simp [List.filter_append, hFcls.2, hPcls.2, isFolderMappingWrite]
            · simp [List.filter_append, hRcls.1, isResolutionWrite]
            · simp [List.filter_append, hRcls.2, isFolderReleasesWrite]

/-- Dry/real correspondence for the folder loop on total collaborators, by
induction over the folder list.  Requires pairwise-distinct folder ids (so a
real-run mapping insert for one folder cannot change the lookup a later folder
sees) and that every looped folder id lies in `cur`, the current folder-id
set, so that real-run mapping inserts never touch the stale-row projection
used by the cleanup pass. -/
theorem sync_folders_dry_real (T : TotalScripts) (ctx : MatchContext)
    (cfg : EngineSettings) :
    ∀ (fs : List Folder) (stD stR : DBState) (now : Int) (cur : List Int),
    (∀ f ∈ fs, f.id ∈ cur) →
    ((fs.map (fun f => f.id)).Nodup) →
    stR.cache = stD.cache →
    (∀ f ∈ fs, get_folder_mapping stR.mappings f.id "spotify"
      = get_folder_mapping stD.mappings f.id "spotify") →
    ∃ effsD resD stD1 effsR resR stR1,
      sync_folders (mkDiscogs T) (mkClient T) ctx cfg fs true stD now
        = (effsD, .ok (resD, stD1)) ∧
      sync_folders (mkDiscogs T) (mkClient T) ctx cfg fs false stR now
        = (effsR, .ok (resR, stR1)) ∧
      resD.operations = resR.operations ∧
      resD.playlistsCreated = resR.playlistsCreated ∧
      resD.playlistsDeleted = resR.playlistsDeleted ∧
      resD.tracksMissing = resR.tracksMissing ∧
      resD.tracksFlagged = resR.tracksFlagged ∧
      stD1.mappings = stD.mappings ∧
      stD1.cache = stR1.cache ∧
      stR1.mappings.filter (fun m => !(decide (m.folderId ∈ cur)))
        = stR.mappings.filter (fun m => !(decide (m.folderId ∈ cur))) ∧
      effsD.filter isMutatingClientCall = [] ∧
      effsD.filter isFolderMappingWrite = [] ∧
      effsD.filter isResolutionWrite = effsR.filter isResolutionWrite ∧
      effsD.filter isFolderReleasesWrite = effsR.filter isFolderReleasesWrite := by
  intro fs
  induction fs with
  | nil =>
    intro stD stR now cur _ _ hcache _
    exact ⟨[], emptyResult, stD, [], emptyResult, stR, rfl, rfl, rfl, rfl, rfl,
      rfl, rfl, rfl, hcache.symm, rfl, rfl, rfl, rfl, rfl⟩
  | cons f rest ih =>
    intro stD stR now cur hcur hnodup hcache hlook
    obtain ⟨effsD, rD, stD1, effsR, rR, stR1, hD, hR, hops, hc1, hc2, hc3, hc4,
        hDm, hDc, hRm, hm1, hm2, hm3, hm4⟩ :=
      sync_folder_dry_real T ctx cfg f stD stR now hcache
        (hlook f (List.mem_cons_self _ _))
    obtain ⟨hne0, hnodup'⟩ : (∀ x ∈ rest, ¬x.id = f.id)
        ∧ (rest.map (fun g => g.id)).Nodup := by simpa using hnodup
    have hlook' : ∀ g ∈ rest, get_folder_mapping stR1.mappings g.id "spotify"
        = get_folder_mapping stD1.mappings g.id "spotify" := by
      intro g hg
      have hbase : get_folder_mapping stR1.mappings g.id "spotify"
          = get_folder_mapping stR.mappings g.id "spotify" := by
        rcases hRm with heq | ⟨pid, heq⟩
        · rw [heq]
        · rw [heq, get_folder_mapping_save_of_ne _ _ _ _ _ _ _ _ (hne0 g hg)]
      rw [hbase, hDm, hlook g (List.mem_cons_of_mem f hg)]
    have hstale1 : stR1.mappings.filter (fun m => !(decide (m.folderId ∈ cur)))
        = stR.mappings.filter (fun m => !(decide (m.folderId ∈ cur))) := by
      rcases hRm with heq | ⟨pid, heq⟩
      · rw [heq]
      · rw [heq, save_filter_not_in_cur]
        exact hcur f (List.mem_cons_self _ _)
    obtain ⟨effsD2, resD2, stD2, effsR2, resR2, stR2, hD2, hR2, hops2, hd1, hd2,
        hd3, hd4, hDm2, hDc2, hRm2, hn1, hn2, hn3, hn4⟩ :=
      ih stD1 stR1 now cur (fun g hg => hcur g (List.mem_cons_of_mem f hg))
        hnodup' (hDc.symm) hlook'
    have hDfull : sync_folders (mkDiscogs T) (mkClient T) ctx cfg (f :: rest)
        true stD now = (effsD ++ effsD2, .ok (mergeResult rD resD2, stD2)) := by
      rw [sync_folders, hD]
      try dsimp only
      rw [hD2]
    have hRfull : sync_folders (mkDiscogs T) (mkClient T) ctx cfg (f :: rest)
        false stR now = (effsR ++ effsR2, .ok (mergeResult rR resR2, stR2)) := by
      rw [sync_folders, hR]
      try dsimp only
      rw [hR2]
    refine ⟨_, _, _, _, _, _, hDfull, hRfull, ?_, ?_, ?_, ?_, ?_, ?_, ?_, ?_,
      ?_, ?_, ?_, ?_⟩
    · simp [mergeResult, hops, hops2]
    · simp [mergeResult, hc1, hd1]
    · simp [mergeResult, hc2, hd2]
    · simp [mergeResult, hc3, hd3]
    · simp [mergeResult, hc4, hd4]
    · rw [hDm2, hDm]
    · exact hDc2
    · rw [hRm2, hstale1]
    · simp [List.filter_append, hm1, hn1]
    · simp [List.filter_append, hm2, hn2]
    · simp [List.filter_append, hm3, hn3]
    · simp [List.filter_append, hm4, hn4]

/-- C6 (amended): dry-run frame condition as the code actually implements it
(engine.py lines 283-303, 374-410, 549-589).  Over the same total
collaborators, the same fixed store and distinct current folder ids, the
dry run and the real run both complete and produce identical operation logs
(same operations, hence same types and counts) and identical
created/deleted/missing/flagged counters; the dry run makes zero mutating
playlist-client calls (create/delete/add/remove) and performs zero
FolderMapping writes; CachedMatch and MissingTrack writes occur identically
in both runs.  But contrary to the claim, `folder_releases` snapshot writes
are NOT suppressed: the dry run performs exactly the same
FolderReleaseSnapshot writes as the real run, because
`update_folder_releases` is called unconditionally at the end of
`_sync_folder`. -/
theorem dry_run_faithfulness (T : TotalScripts) (ctx : MatchContext)
    (cfg : EngineSettings) (iw : Bool) (names : List String) (st : DBState)
    (now : Int)
    (hnodup : ((current_folders T.folders names iw).map (fun f => f.id)).Nodup) :
    ∃ effsD resD stD effsR resR stR,
      sync (mkDiscogs T) (mkClient T) ctx cfg iw names true st now
        = (effsD, .ok (resD, stD)) ∧
      sync (mkDiscogs T) (mkClient T) ctx cfg iw names false st now
        = (effsR, .ok (resR, stR)) ∧
      resD.operations = resR.operations ∧
      resD.playlistsCreated = resR.playlistsCreated ∧
      resD.playlistsDeleted = resR.playlistsDeleted ∧
      resD.tracksMissing = resR.tracksMissing ∧
      resD.tracksFlagged = resR.tracksFlagged ∧
      effsD.filter isMutatingClientCall = [] ∧
      effsD.filter isFolderMappingWrite = [] ∧
      effsD.filter isResolutionWrite = effsR.filter isResolutionWrite ∧
      effsD.filter isFolderReleasesWrite = effsR.filter isFolderReleasesWrite := by
  obtain ⟨effsD, resD, stD1, effsR, resR, stR1, hD, hR, hops, hc1, hc2, hc3,
      hc4, hDm, hDc, hRm, hm1, hm2, hm3, hm4⟩ :=
    sync_folders_dry_real T ctx cfg (current_folders T.folders names iw) st st
      now ((current_folders T.folders names iw).map (fun f => f.id))
      (fun f hf => List.mem_map_of_mem _ hf) hnodup rfl (fun _ _ => rfl)
  obtain ⟨effsC, ms2, hC, hCres, hCfr⟩ :=
    cleanup_real_spec T (get_all_folder_mappings stR1.mappings "spotify")
      stR1.mappings ((current_folders T.folders names iw).map (fun f => f.id))
  have hsnap : staleMappings (get_all_folder_mappings stR1.mappings "spotify")
      ((current_folders T.folders names iw).map (fun f => f.id))
      = staleMappings (get_all_folder_mappings stD1.mappings "spotify")
        ((current_folders T.folders names iw).map (fun f => f.id)) :=
    staleMappings_get_all _ _ _ (by rw [hRm, hDm])
  unfold sync
  rw [mkDiscogs_getFolders]
  try dsimp only
  rw [hD, hR]
  try dsimp only
  rw [cleanup_dry_eq, hC]
  try dsimp only
  refine ⟨_, _, _, _, _, _, rfl, rfl, ?_, ?_, ?_, ?_, ?_, ?_, ?_, ?_, ?_⟩
  · rw [hops, hsnap]
  · exact hc1
  · rw [hc2, hsnap]
  · exact hc3
  · exact hc4
  · simp [List.filter_append, hm1]
  · simp [List.filter_append, hm2]
  · simp [List.filter_append, hm3, hCres]
  · simp [List.filter_append, hm4, hCfr]

/-- A total environment with one folder (id 7) holding one release (id 101)
with one track that the search resolves. -/
def cexDryT : TotalScripts :=
  ⟨[⟨7, "F", 1⟩], fun _ => [⟨101, "R", "Ar"⟩], [], fun _ => [⟨"A1", "T", "Ar"⟩],
   fun _ => [⟨"t1", "T", "Ar", 50, "u", true⟩], fun _ => none,
   fun n _ => ⟨"p1", n⟩, fun _ => []⟩

/-- C6 counterexample: a dry run is not free of `folder_releases` writes.  In
a dry-run sync of one folder with one release, the effect trace contains
exactly one FolderReleaseSnapshot write, recording folder 7's release ids
[101] — `update_folder_releases` (engine.py line 408) is outside any dry-run
guard. -/
theorem dry_run_writes_folder_releases :
    (sync (mkDiscogs cexDryT) (mkClient cexDryT) cexCtx cexCfg false [] true
      ⟨[], []⟩ 0).1.filter isFolderReleasesWrite
      = [Effect.folderReleasesWrite 7 [101]] := rfl

/-- C6 witness: the amended dry-run frame condition instantiated at the
concrete one-folder environment, with the distinct-folder-id hypothesis
discharged by evaluation. -/
theorem dry_run_faithfulness_witness :
    ((current_folders cexDryT.folders [] false).map (fun f => f.id)).Nodup ∧
    (∃ effsD resD stD effsR resR stR,
      sync (mkDiscogs cexDryT) (mkClient cexDryT) cexCtx cexCfg false [] true
        ⟨[], []⟩ 0 = (effsD, .ok (resD, stD)) ∧
      sync (mkDiscogs cexDryT) (mkClient cexDryT) cexCtx cexCfg false [] false
        ⟨[], []⟩ 0 = (effsR, .ok (resR, stR)) ∧
      resD.operations = resR.operations ∧
      resD.playlistsCreated = resR.playlistsCreated ∧
      resD.playlistsDeleted = resR.playlistsDeleted ∧
      resD.tracksMissing = resR.tracksMissing ∧
      resD.tracksFlagged = resR.tracksFlagged ∧
      effsD.filter isMutatingClientCall = [] ∧
      effsD.filter isFolderMappingWrite = [] ∧
      effsD.filter isResolutionWrite = effsR.filter isResolutionWrite ∧
      effsD.filter isFolderReleasesWrite = effsR.filter isFolderReleasesWrite) :=
  ⟨by decide,
   dry_run_faithfulness cexDryT cexCtx cexCfg false [] ⟨[], []⟩ 0 (by decide)⟩
